import Mathlib

/-!
# A shallow embedding of the single-queue, multiple-worker thread pool

Sources embedded here: `src/sqmw.cpp` (the member functions of `SQMW` and of
its inner `Worker`), `src/single_queue.hpp` (the template member `run`, whose
body is shared by both pool classes) and `src/threadpool_base.hpp` (the
fields and the two hook-calling macros).

The pool is a record of its fields.  Every thread of the `_pool` vector is
recorded with its task budget and a program counter that says which statement
of `Worker::operator()` it executes next.  Statements that touch shared data
are separate steps, so that every interleaving the mutex allows is a sequence
of steps.  Calls into the hook sink, and the three queue events (a task is
enqueued, dequeued, executed), are appended to an observation trace.

`std::size_t` values are natural numbers; arithmetic on them is reduced
modulo `SIZE_MOD`.
-/

namespace ThreadPool

/-- The number of values of `std::size_t` (64-bit targets). -/
def SIZE_MOD : Nat := 18446744073709551616

/-- A queued `std::packaged_task<void()>`, known by an identifier only. -/
abbrev Task := Nat

/-- Observable events: the four callbacks of `Hooks`, and the life of a task. -/
inductive Event where
  | on_worker_add
  | on_worker_die
  | pre_task_hook
  | post_task_hook
  | enqueued (t : Task)
  | dequeued (t : Task)
  | executed (t : Task)
  deriving DecidableEq

/-- Where a thread stands inside `Worker::operator()` (sqmw.cpp:111-142).
`i` is the loop variable of line 113. -/
inductive Pc where
  /-- About to evaluate the loop condition of line 113. -/
  | loop_test (i : Nat)
  /-- Line 116 done; blocked on the mutex and the wait of lines 117-119. -/
  | cv_wait (i : Nat)
  /-- Wait returned with `_stop` unset, line 125 done; the mutex is held. -/
  | woken (i : Nat)
  /-- Line 127 done; the mutex is held. -/
  | left_waiting (i : Nat)
  /-- Line 128 done; the mutex is held. -/
  | counted (i : Nat)
  /-- Lines 131-135 done: the task is owned by this thread, mutex released. -/
  | running (i : Nat) (t : Task)
  /-- The call `operator()` has returned. -/
  | returned
  deriving DecidableEq

/-- One entry of the `_pool` vector: a thread running `Worker::operator()`. -/
structure Worker where
  /-- The argument `nb_task` the thread was started with. -/
  nb_task : Nat
  pc : Pc
  deriving DecidableEq

/-- The fields of `ThreadPoolBase` and of the pool class, followed by the
observation `trace` and the flag `undefined`, which records that `front()` was
applied to an empty queue. -/
structure SQMW where
  _waiting_threads : Nat
  _working_threads : Nat
  _pool_size : Nat
  _max_pool_size : Nat
  _stop : Bool
  /-- True when `_hooks` is not the null pointer. -/
  _hooks : Bool
  _pool : List Worker
  /-- The queue `_tasks`; its front is the head of the list. -/
  _tasks : List Task
  /-- True while a thread holds `_tasks_lock`. -/
  _tasks_lock : Bool
  trace : List Event
  undefined : Bool
  deriving DecidableEq

/-- `x += 1` on a `std::size_t`. -/
def size_inc (x : Nat) : Nat := (x + 1) % SIZE_MOD

/-- `x -= 1` on a `std::size_t`: zero wraps around to the largest value. -/
def size_dec (x : Nat) : Nat := if x = 0 then SIZE_MOD - 1 else x - 1

/-- `x + y` on `std::size_t`. -/
def size_add (x y : Nat) : Nat := (x + y) % SIZE_MOD

namespace SQMW

/-- The macro `CALL_HOOK_POOL` (threadpool_base.hpp:15-20). -/
def CALL_HOOK_POOL (s : SQMW) (h : Event) : SQMW :=
  if s._hooks then { s with trace := s.trace ++ [h] } else s

/-- The macro `CALL_HOOK_WORKER` (threadpool_base.hpp:8-13). -/
def CALL_HOOK_WORKER (s : SQMW) (h : Event) : SQMW :=
  if s._hooks then { s with trace := s.trace ++ [h] } else s

/-- The member initialisers of the constructor (sqmw.cpp:21-25) and the default
member initialiser of `_stop`. -/
def members (pool_size max_pool_size : Nat) : SQMW where
  _waiting_threads := 0
  _working_threads := 0
  _pool_size := pool_size
  _max_pool_size := max_pool_size
  _stop := false
  _hooks := false
  _pool := []
  _tasks := []
  _tasks_lock := false
  trace := []
  undefined := false

/-- The function `add_worker` (sqmw.cpp:83-88): a thread is started on
`Worker::operator()(nb_task)` and appended to `_pool`. -/
def add_worker (s : SQMW) (nb_task : Nat) : SQMW :=
  { s with _pool := s._pool ++ [{ nb_task := nb_task, pc := Pc.loop_test 0 }] }

/-- The loop of `start_pool`, by the number of iterations still to run. -/
def start_pool_loop : Nat → SQMW → SQMW
  | 0, s => s
  | n + 1, s => start_pool_loop n (add_worker s 0)

/-- The function `start_pool` (sqmw.cpp:67-71). -/
def start_pool (s : SQMW) : SQMW := start_pool_loop s._pool_size s

/-- The state the constructor `SQMW(pool_size, max_pool_size)` leaves
(sqmw.cpp:20-28). -/
def create (pool_size max_pool_size : Nat) : SQMW :=
  start_pool (members pool_size max_pool_size)

/-- Outcome of constructing a pool: `none` would be a constructor that throws.
The constructor of sqmw.cpp:20-28 has no throw statement. -/
def construct (pool_size max_pool_size : Nat) : Option SQMW :=
  some (create pool_size max_pool_size)

/-- The function `stop` (sqmw.cpp:36-42), once the mutex is acquired. -/
def stop (s : SQMW) : SQMW := { s with _stop := true }

/-- The function `is_stop` (sqmw.cpp:44-47). -/
def is_stop (s : SQMW) : Bool := s._stop

/-- The function `threads_available` (sqmw.cpp:49-52). -/
def threads_available (s : SQMW) : Nat := s._waiting_threads

/-- The function `threads_working` (sqmw.cpp:54-57). -/
def threads_working (s : SQMW) : Nat := s._working_threads

/-- The function `register_hooks` (sqmw.cpp:59-62); `hooks` says whether the
pointer passed is non-null. -/
def register_hooks (s : SQMW) (hooks : Bool) : SQMW := { s with _hooks := hooks }

/-- The function `check_spawn_single_worker` (sqmw.cpp:90-101). -/
def check_spawn_single_worker (s : SQMW) : SQMW :=
  if s._max_pool_size > s._pool_size then
    if size_add s._working_threads s._waiting_threads < s._max_pool_size then
      add_worker (CALL_HOOK_POOL s Event.on_worker_add) 1
    else s
  else s

/-- The block of `run` that holds the mutex (single_queue.hpp:164-168). -/
def run_locked (s : SQMW) (t : Task) : SQMW :=
  if s._stop then s
  else { s with _tasks := s._tasks ++ [t], trace := s.trace ++ [Event.enqueued t] }

/-- The function `run` (single_queue.hpp:147-173) executed without
interruption: the spawn check of line 161, then the locked block. -/
def run (s : SQMW) (t : Task) : SQMW :=
  run_locked (check_spawn_single_worker s) t

/-- Replace the record of thread `k`. -/
def set_worker (s : SQMW) (k : Nat) (w : Worker) : SQMW :=
  { s with _pool := s._pool.set k w }

end SQMW

namespace Worker

open SQMW

/-- The loop condition of line 113. -/
def loop_cond (i nb_task : Nat) : Bool := i != nb_task || nb_task == 0

/-- The next step of thread `k` in `Worker::operator()` (sqmw.cpp:111-142).
At `cv_wait` this is what the thread does when the wait of lines 117-119
returns. -/
def step (s : SQMW) (k : Nat) : SQMW :=
  match s._pool[k]? with
  | none => s
  | some w =>
    match w.pc with
    | Pc.loop_test i =>
      if loop_cond i w.nb_task then
        set_worker { s with _waiting_threads := size_inc s._waiting_threads } k
          { w with pc := Pc.cv_wait i }
      else set_worker s k { w with pc := Pc.returned }
    | Pc.cv_wait i =>
      if s._stop then set_worker s k { w with pc := Pc.returned }
      else
        set_worker (CALL_HOOK_WORKER { s with _tasks_lock := true } Event.pre_task_hook) k
          { w with pc := Pc.woken i }
    | Pc.woken i =>
      set_worker { s with _waiting_threads := size_dec s._waiting_threads } k
        { w with pc := Pc.left_waiting i }
    | Pc.left_waiting i =>
      set_worker { s with _working_threads := size_inc s._working_threads } k
        { w with pc := Pc.counted i }
    | Pc.counted i =>
      match s._tasks with
      | [] => { s with undefined := true }
      | t :: rest =>
        set_worker
          { s with _tasks := rest, _tasks_lock := false,
                   trace := s.trace ++ [Event.dequeued t] } k
          { w with pc := Pc.running i t }
    | Pc.running i t =>
      let s1 := CALL_HOOK_WORKER { s with trace := s.trace ++ [Event.executed t] }
        Event.post_task_hook
      set_worker { s1 with _working_threads := size_dec s1._working_threads } k
        { w with pc := Pc.loop_test (size_inc i) }
    | Pc.returned => s

/-- Whether thread `k` can take its next step: a thread at `cv_wait` needs the
mutex free and the predicate of line 119 true. -/
def ready (s : SQMW) (k : Nat) : Bool :=
  match s._pool[k]? with
  | some { nb_task := _, pc := Pc.cv_wait _ } =>
    !s._tasks_lock && (s._stop || !s._tasks.isEmpty)
  | _ => true

end Worker

/-- What one thread of the program does next. `check_spawn` and `enqueue` are
the two halves of a call of `run` that is preempted between lines 161 and
164. -/
inductive Action where
  | run (t : Task)
  | check_spawn
  | enqueue (t : Task)
  | stop
  | register_hooks (hooks : Bool)
  | worker (k : Nat)
  deriving DecidableEq

namespace SQMW

/-- Whether an action can fire: the locked blocks need the mutex. -/
def enabled (s : SQMW) : Action → Bool
  | Action.run _ => !s._tasks_lock
  | Action.check_spawn => true
  | Action.enqueue _ => !s._tasks_lock
  | Action.stop => !s._tasks_lock
  | Action.register_hooks _ => true
  | Action.worker k => Worker.ready s k

/-- The effect of an action that fires. -/
def effect (s : SQMW) : Action → SQMW
  | Action.run t => run s t
  | Action.check_spawn => check_spawn_single_worker s
  | Action.enqueue t => run_locked s t
  | Action.stop => stop s
  | Action.register_hooks h => register_hooks s h
  | Action.worker k => Worker.step s k

/-- One scheduling decision: a blocked action leaves the state as it is. -/
def apply (s : SQMW) (a : Action) : SQMW :=
  if enabled s a then effect s a else s

/-- A schedule, executed from `s`. -/
def exec (s : SQMW) (as : List Action) : SQMW := as.foldl apply s

end SQMW

/-! ## Observations on a state -/

/-- The tasks of the `enqueued` events of a trace, in order. -/
def enqueuedOf : List Event → List Task
  | [] => []
  | Event.enqueued t :: es => t :: enqueuedOf es
  | _ :: es => enqueuedOf es

/-- The tasks of the `dequeued` events of a trace, in order. -/
def dequeuedOf : List Event → List Task
  | [] => []
  | Event.dequeued t :: es => t :: dequeuedOf es
  | _ :: es => dequeuedOf es

/-- The tasks of the `executed` events of a trace, in order. -/
def executedOf : List Event → List Task
  | [] => []
  | Event.executed t :: es => t :: executedOf es
  | _ :: es => executedOf es

/-- The thread holds `_tasks_lock` (between the wake-up and line 135). -/
def Pc.in_critical : Pc → Bool
  | Pc.woken _ => true
  | Pc.left_waiting _ => true
  | Pc.counted _ => true
  | _ => false

/-- The thread is counted in `_waiting_threads` and still in its loop. -/
def Pc.is_waiting : Pc → Bool
  | Pc.cv_wait _ => true
  | Pc.woken _ => true
  | _ => false

/-- The thread is counted in `_working_threads`. -/
def Pc.is_working : Pc → Bool
  | Pc.counted _ => true
  | Pc.running _ _ => true
  | _ => false

/-- The thread is live and counted in neither counter: before line 116, or
between lines 127 and 128. -/
def Pc.uncounted : Pc → Bool
  | Pc.loop_test _ => true
  | Pc.left_waiting _ => true
  | _ => false

/-- The thread owns a dequeued task that it has not finished executing. -/
def Pc.is_running : Pc → Bool
  | Pc.running _ _ => true
  | _ => false

/-- The thread has just been started and has not reached line 116. -/
def Pc.newly_started : Pc → Bool
  | Pc.loop_test 0 => true
  | _ => false

/-- The loop variable of a thread respects its task budget: a thread with a
budget `nb_task > 0` is in an iteration numbered below `nb_task`, or at the
loop test with a counter of at most `nb_task`. -/
def Worker.within_budget (w : Worker) : Bool :=
  w.nb_task == 0 ||
    match w.pc with
    | Pc.loop_test i => decide (i ≤ w.nb_task)
    | Pc.cv_wait i => decide (i < w.nb_task)
    | Pc.woken i => decide (i < w.nb_task)
    | Pc.left_waiting i => decide (i < w.nb_task)
    | Pc.counted i => decide (i < w.nb_task)
    | Pc.running i _ => decide (i < w.nb_task)
    | Pc.returned => true

/-- The action evaluates the condition of sqmw.cpp:95-96. -/
def Action.reads_counters : Action → Bool
  | Action.run _ => true
  | Action.check_spawn => true
  | _ => false

namespace SQMW

/-- Number of threads holding the mutex. -/
def holders (s : SQMW) : Nat := s._pool.countP (fun w => w.pc.in_critical)

/-- Number of looping threads counted in `_waiting_threads`. -/
def waiters (s : SQMW) : Nat := s._pool.countP (fun w => w.pc.is_waiting)

/-- Number of threads counted in `_working_threads`. -/
def workers (s : SQMW) : Nat := s._pool.countP (fun w => w.pc.is_working)

/-- Number of tasks dequeued and not yet executed. -/
def in_flight (s : SQMW) : Nat := s._pool.countP (fun w => w.pc.is_running)

/-- Number of live threads counted in neither counter. -/
def in_transit (s : SQMW) : Nat := s._pool.countP (fun w => w.pc.uncounted)

/-- The schedules without racing spawns: whenever the counters are read for a
spawn check, no thread is newly started and still before line 116. -/
def no_racing_spawns (s : SQMW) : List Action → Bool
  | [] => true
  | a :: as =>
    (!(enabled s a && a.reads_counters) || s._pool.all (fun w => !w.pc.newly_started))
      && no_racing_spawns (apply s a) as

/-- The schedules in which the counters are read for a spawn check only when
every live thread is counted in one of them. -/
def settled_spawns (s : SQMW) : List Action → Bool
  | [] => true
  | a :: as =>
    (!(enabled s a && a.reads_counters) || s._pool.all (fun w => !w.pc.uncounted))
      && settled_spawns (apply s a) as

end SQMW

/-! ## Invariants -/

namespace SQMW

/-- The mutex discipline: one holder exactly while the mutex is taken, and a
taken mutex means a running pool with a task at the front of the queue. -/
structure LockInv (s : SQMW) : Prop where
  holders_eq : holders s = if s._tasks_lock then 1 else 0
  locked_running : s._tasks_lock = true → s._stop = false
  locked_nonempty : s._tasks_lock = true → s._tasks ≠ []
  defined : s.undefined = false

/-- The queue holds the tasks enqueued and not yet dequeued, in order. -/
def FifoInv (s : SQMW) : Prop := dequeuedOf s.trace ++ s._tasks = enqueuedOf s.trace

/-- The counters account for every thread that is counted, and together with
the live threads not yet counted they stay within the maximum. -/
structure CountInv (s : SQMW) : Prop where
  waiters_le : waiters s ≤ s._waiting_threads
  workers_le : workers s ≤ s._working_threads
  bound : s._waiting_threads + s._working_threads + in_transit s ≤ s._max_pool_size
  max_lt : s._max_pool_size < SIZE_MOD

/-- Every thread of the pool has a budget that is a `std::size_t` and a loop
variable within that budget. -/
def BudgetInv (s : SQMW) : Prop :=
  ∀ (k : Nat) (w : Worker), s._pool[k]? = some w →
    w.nb_task < SIZE_MOD ∧ w.within_budget = true

/-- A stopped pool whose mutex nobody holds. -/
def Frozen (s : SQMW) : Prop := s._stop = true ∧ holders s = 0

/-- Nothing was enqueued or dequeued between `s` and `r`, and the tasks
executed in between were in flight in `s`. -/
def Quiet (s r : SQMW) : Prop :=
  r._tasks = s._tasks ∧ dequeuedOf r.trace = dequeuedOf s.trace ∧
    (executedOf r.trace).length + in_flight r = (executedOf s.trace).length + in_flight s

/-- Thread `k` stands at the loop test with counter `i`, in a running pool
whose mutex is free. -/
def SoloAt (s : SQMW) (k nb_task i : Nat) : Prop :=
  s._pool[k]? = some { nb_task := nb_task, pc := Pc.loop_test i } ∧ s._stop = false ∧
    s._tasks_lock = false

/-- What the proofs about a thread running alone need to know of a state `r`
reached from `s`. -/
def View (s r : SQMW) (k : Nat) (w : Worker) (lock : Bool) (tasks : List Task)
    (done : List Task) : Prop :=
  r._pool[k]? = some w ∧ r._stop = s._stop ∧ r._tasks_lock = lock ∧ r._tasks = tasks ∧
    executedOf r.trace = executedOf s.trace ++ done

end SQMW

/-- A schedule of `n` consecutive decisions for thread `k`, and for no other. -/
def solo (k n : Nat) : List Action := List.replicate n (Action.worker k)

/-- The loop variable of line 113 after `j` more increments. -/
def counter_after (i j : Nat) : Nat := (i + j) % SIZE_MOD

end ThreadPool

namespace ThreadPool

/-! ## Basic facts -/

theorem size_add_of_lt (x y : Nat) (h : x + y < SIZE_MOD) : size_add x y = x + y := by
  unfold size_add; exact Nat.mod_eq_of_lt h

theorem size_inc_of_lt (x : Nat) (h : x + 1 < SIZE_MOD) : size_inc x = x + 1 := by
  unfold size_inc; exact Nat.mod_eq_of_lt h

theorem size_dec_of_pos (x : Nat) (h0 : 0 < x) : size_dec x = x - 1 := by
  unfold size_dec; rw [if_neg (by omega)]

theorem size_inc_lt (x : Nat) : size_inc x < SIZE_MOD := by
  unfold size_inc SIZE_MOD; omega

namespace SQMW

theorem start_pool_loop_eq (n : Nat) (s : SQMW) :
    start_pool_loop n s =
      { s with _pool := s._pool ++ List.replicate n { nb_task := 0, pc := Pc.loop_test 0 } } := by
  induction n generalizing s with
  | zero => simp [start_pool_loop]
  | succ n ih =>
    simp [start_pool_loop, ih, add_worker, List.replicate_succ]

theorem create_eq (pool_size max_pool_size : Nat) :
    create pool_size max_pool_size =
      { members pool_size max_pool_size with
        _pool := List.replicate pool_size { nb_task := 0, pc := Pc.loop_test 0 } } := by
  simp [create, start_pool, start_pool_loop_eq, members]

end SQMW

end ThreadPool

namespace ThreadPool

theorem countP_set_of_getElem? {α : Type} (p : α → Bool) (l : List α) (k : Nat) (w a : α)
    (h : l[k]? = some w) :
    (l.set k a).countP p + (if p w then 1 else 0) = l.countP p + (if p a then 1 else 0) := by
  obtain ⟨hk, hw⟩ := List.getElem?_eq_some.mp h
  have h1 := List.countP_set p l k a hk
  have h2 := List.boole_getElem_le_countP p l k hk
  rw [hw] at h1 h2
  omega

theorem countP_set_same {α : Type} (p : α → Bool) (l : List α) (k : Nat) (w a : α)
    (h : l[k]? = some w) (hp : p a = p w) : (l.set k a).countP p = l.countP p := by
  have := countP_set_of_getElem? p l k w a h
  rw [hp] at this
  omega

theorem countP_set_gain {α : Type} (p : α → Bool) (l : List α) (k : Nat) (w a : α)
    (h : l[k]? = some w) (hw : p w = false) (ha : p a = true) :
    (l.set k a).countP p = l.countP p + 1 := by
  have := countP_set_of_getElem? p l k w a h
  simp [hw, ha] at this
  omega

theorem countP_set_loss {α : Type} (p : α → Bool) (l : List α) (k : Nat) (w a : α)
    (h : l[k]? = some w) (hw : p w = true) (ha : p a = false) :
    (l.set k a).countP p + 1 = l.countP p := by
  have := countP_set_of_getElem? p l k w a h
  simp [hw, ha] at this
  omega

theorem countP_pos_of_getElem? {α : Type} (p : α → Bool) (l : List α) (k : Nat) (w : α)
    (h : l[k]? = some w) (hw : p w = true) : 0 < l.countP p := by
  obtain ⟨hk, hw2⟩ := List.getElem?_eq_some.mp h
  have h2 := List.boole_getElem_le_countP p l k hk
  rw [hw2, hw] at h2
  simpa using h2

theorem countP_concat_neg {α : Type} (p : α → Bool) (l : List α) (a : α) (h : p a = false) :
    (l ++ [a]).countP p = l.countP p := by
  simp [List.countP_append, List.countP_cons, h]

theorem countP_concat_pos {α : Type} (p : α → Bool) (l : List α) (a : α) (h : p a = true) :
    (l ++ [a]).countP p = l.countP p + 1 := by
  simp [List.countP_append, List.countP_cons, h]

namespace SQMW

@[simp] theorem CALL_HOOK_WORKER_pool (s : SQMW) (e : Event) : (CALL_HOOK_WORKER s e)._pool = s._pool := by
  unfold CALL_HOOK_WORKER; split <;> rfl
@[simp] theorem CALL_HOOK_WORKER_tasks (s : SQMW) (e : Event) : (CALL_HOOK_WORKER s e)._tasks = s._tasks := by
  unfold CALL_HOOK_WORKER; split <;> rfl
@[simp] theorem CALL_HOOK_WORKER_lock (s : SQMW) (e : Event) : (CALL_HOOK_WORKER s e)._tasks_lock = s._tasks_lock := by
  unfold CALL_HOOK_WORKER; split <;> rfl
@[simp] theorem CALL_HOOK_WORKER_stop (s : SQMW) (e : Event) : (CALL_HOOK_WORKER s e)._stop = s._stop := by
  unfold CALL_HOOK_WORKER; split <;> rfl
@[simp] theorem CALL_HOOK_WORKER_undefined (s : SQMW) (e : Event) : (CALL_HOOK_WORKER s e).undefined = s.undefined := by
  unfold CALL_HOOK_WORKER; split <;> rfl
@[simp] theorem CALL_HOOK_WORKER_waiting (s : SQMW) (e : Event) : (CALL_HOOK_WORKER s e)._waiting_threads = s._waiting_threads := by
  unfold CALL_HOOK_WORKER; split <;> rfl
@[simp] theorem CALL_HOOK_WORKER_working (s : SQMW) (e : Event) : (CALL_HOOK_WORKER s e)._working_threads = s._working_threads := by
  unfold CALL_HOOK_WORKER; split <;> rfl
@[simp] theorem CALL_HOOK_WORKER_max (s : SQMW) (e : Event) : (CALL_HOOK_WORKER s e)._max_pool_size = s._max_pool_size := by
  unfold CALL_HOOK_WORKER; split <;> rfl

theorem LockInv_check_spawn (s : SQMW) (h : LockInv s) : LockInv (check_spawn_single_worker s) := by
  obtain ⟨h1, h2, h3, h4⟩ := h
  unfold check_spawn_single_worker
  split
  · split
    · unfold add_worker CALL_HOOK_POOL
      split <;> constructor <;> simp_all [holders, Pc.in_critical]
    · exact ⟨h1, h2, h3, h4⟩
  · exact ⟨h1, h2, h3, h4⟩

theorem LockInv_run_locked (s : SQMW) (t : Task) (h : LockInv s) : LockInv (run_locked s t) := by
  obtain ⟨h1, h2, h3, h4⟩ := h
  unfold run_locked
  split
  · exact ⟨h1, h2, h3, h4⟩
  · constructor <;> simp_all [holders]

theorem LockInv_step (s : SQMW) (k : Nat) (h : LockInv s) (hr : Worker.ready s k = true) :
    LockInv (Worker.step s k) := by
  obtain ⟨h1, h2, h3, h4⟩ := h
  unfold Worker.step
  unfold Worker.ready at hr
  unfold holders at h1
  cases hk : s._pool[k]? with
  | none => exact ⟨h1, h2, h3, h4⟩
  | some w =>
    obtain ⟨n, pc⟩ := w
    have same := fun a e => countP_set_same (fun w : Worker => w.pc.in_critical) s._pool k _ a hk e
    have gain := fun a e1 e2 => countP_set_gain (fun w : Worker => w.pc.in_critical) s._pool k _ a hk e1 e2
    have loss := fun a e1 e2 => countP_set_loss (fun w : Worker => w.pc.in_critical) s._pool k _ a hk e1 e2
    have pos := fun e => countP_pos_of_getElem? (fun w : Worker => w.pc.in_critical) s._pool k _ hk e
    rw [hk] at hr
    cases pc with
    | loop_test i =>
      have hc1 := same ⟨n, Pc.cv_wait i⟩ rfl
      have hc2 := same ⟨n, Pc.returned⟩ rfl
      dsimp only
      split <;> constructor <;> simp_all [holders, set_worker]
    | cv_wait i =>
      have hc1 := gain ⟨n, Pc.woken i⟩ rfl rfl
      have hc2 := same ⟨n, Pc.returned⟩ rfl
      dsimp only
      split <;> constructor <;> simp_all [holders, set_worker]
    | woken i =>
      have hc1 := same ⟨n, Pc.left_waiting i⟩ rfl
      dsimp only
      constructor <;> simp_all [holders, set_worker]
    | left_waiting i =>
      have hc1 := same ⟨n, Pc.counted i⟩ rfl
      dsimp only
      constructor <;> simp_all [holders, set_worker]
    | counted i =>
      have hp := pos rfl
      have hl : s._tasks_lock = true := by
        cases hl : s._tasks_lock
        · rw [hl] at h1
          simp only [Bool.false_eq_true, if_false] at h1
          omega
        · rfl
      dsimp only
      cases htk : s._tasks with
      | nil => exact absurd htk (h3 hl)
      | cons t rest =>
        have hc1 := loss ⟨n, Pc.running i t⟩ rfl rfl
        dsimp only
        constructor <;> simp_all [holders, set_worker]
    | running i t =>
      have hc1 := same ⟨n, Pc.loop_test (size_inc i)⟩ rfl
      dsimp only
      constructor <;> simp_all [holders, set_worker]
    | returned => exact ⟨h1, h2, h3, h4⟩

theorem LockInv_apply (s : SQMW) (a : Action) (h : LockInv s) : LockInv (apply s a) := by
  unfold apply
  split
  · rename_i he
    cases a with
    | run t => exact LockInv_run_locked _ t (LockInv_check_spawn s h)
    | check_spawn => exact LockInv_check_spawn s h
    | enqueue t => exact LockInv_run_locked s t h
    | stop =>
      obtain ⟨h1, h2, h3, h4⟩ := h
      simp only [enabled, Bool.not_eq_true'] at he
      constructor <;> simp_all [effect, stop, holders]
    | register_hooks b =>
      obtain ⟨h1, h2, h3, h4⟩ := h
      constructor <;> simp_all [effect, register_hooks, holders]
    | worker k => exact LockInv_step s k h he
  · exact h

theorem LockInv_exec (as : List Action) (s : SQMW) (h : LockInv s) : LockInv (exec s as) := by
  induction as generalizing s with
  | nil => exact h
  | cons a as ih => exact ih _ (LockInv_apply s a h)

theorem LockInv_create (pool_size max_pool_size : Nat) :
    LockInv (create pool_size max_pool_size) := by
  rw [create_eq]
  constructor <;> simp [members, holders, List.countP_replicate, Pc.in_critical]

end SQMW

theorem enqueuedOf_append (a b : List Event) :
    enqueuedOf (a ++ b) = enqueuedOf a ++ enqueuedOf b := by
  induction a with
  | nil => rfl
  | cons e a ih => cases e <;> simp [enqueuedOf, ih]

theorem dequeuedOf_append (a b : List Event) :
    dequeuedOf (a ++ b) = dequeuedOf a ++ dequeuedOf b := by
  induction a with
  | nil => rfl
  | cons e a ih => cases e <;> simp [dequeuedOf, ih]

theorem executedOf_append (a b : List Event) :
    executedOf (a ++ b) = executedOf a ++ executedOf b := by
  induction a with
  | nil => rfl
  | cons e a ih => cases e <;> simp [executedOf, ih]

namespace SQMW

theorem enqueuedOf_CALL_HOOK_WORKER (s : SQMW) (e : Event) (h : enqueuedOf [e] = []) :
    enqueuedOf (CALL_HOOK_WORKER s e).trace = enqueuedOf s.trace := by
  unfold CALL_HOOK_WORKER; split
  · simp [enqueuedOf_append, h]
  · rfl

theorem dequeuedOf_CALL_HOOK_WORKER (s : SQMW) (e : Event) (h : dequeuedOf [e] = []) :
    dequeuedOf (CALL_HOOK_WORKER s e).trace = dequeuedOf s.trace := by
  unfold CALL_HOOK_WORKER; split
  · simp [dequeuedOf_append, h]
  · rfl

theorem executedOf_CALL_HOOK_WORKER (s : SQMW) (e : Event) (h : executedOf [e] = []) :
    executedOf (CALL_HOOK_WORKER s e).trace = executedOf s.trace := by
  unfold CALL_HOOK_WORKER; split
  · simp [executedOf_append, h]
  · rfl

theorem check_spawn_tasks (s : SQMW) : (check_spawn_single_worker s)._tasks = s._tasks := by
  unfold check_spawn_single_worker add_worker CALL_HOOK_POOL
  split
  · split
    · split <;> rfl
    · rfl
  · rfl

theorem check_spawn_stop (s : SQMW) : (check_spawn_single_worker s)._stop = s._stop := by
  unfold check_spawn_single_worker add_worker CALL_HOOK_POOL
  split
  · split
    · split <;> rfl
    · rfl
  · rfl

theorem check_spawn_enqueuedOf (s : SQMW) :
    enqueuedOf (check_spawn_single_worker s).trace = enqueuedOf s.trace := by
  unfold check_spawn_single_worker add_worker CALL_HOOK_POOL
  split
  · split
    · split
      · simp [enqueuedOf_append, enqueuedOf]
      · rfl
    · rfl
  · rfl

theorem check_spawn_dequeuedOf (s : SQMW) :
    dequeuedOf (check_spawn_single_worker s).trace = dequeuedOf s.trace := by
  unfold check_spawn_single_worker add_worker CALL_HOOK_POOL
  split
  · split
    · split
      · simp [dequeuedOf_append, dequeuedOf]
      · rfl
    · rfl
  · rfl

theorem FifoInv_check_spawn (s : SQMW) (h : FifoInv s) : FifoInv (check_spawn_single_worker s) := by
  unfold FifoInv at *
  rw [check_spawn_tasks, check_spawn_enqueuedOf, check_spawn_dequeuedOf, h]

theorem FifoInv_run_locked (s : SQMW) (t : Task) (h : FifoInv s) : FifoInv (run_locked s t) := by
  unfold FifoInv at *
  unfold run_locked
  split
  · exact h
  · simp only [enqueuedOf_append, dequeuedOf_append, enqueuedOf, dequeuedOf, ← h, List.append_assoc, List.append_nil]

theorem FifoInv_step (s : SQMW) (k : Nat) (h : FifoInv s) : FifoInv (Worker.step s k) := by
  unfold FifoInv at *
  unfold Worker.step
  cases hk : s._pool[k]? with
  | none => exact h
  | some w =>
    obtain ⟨n, pc⟩ := w
    cases pc with
    | loop_test i => dsimp only; split <;> simpa [set_worker] using h
    | cv_wait i =>
      dsimp only
      split
      · simpa [set_worker] using h
      · simp only [set_worker]
        rw [enqueuedOf_CALL_HOOK_WORKER _ Event.pre_task_hook rfl,
          dequeuedOf_CALL_HOOK_WORKER _ Event.pre_task_hook rfl]
        simpa using h
    | woken i => simpa [set_worker] using h
    | left_waiting i => simpa [set_worker] using h
    | counted i =>
      dsimp only
      cases htk : s._tasks with
      | nil => simpa [htk] using h
      | cons t rest =>
        rw [htk] at h
        simp only [set_worker, enqueuedOf_append, dequeuedOf_append, enqueuedOf, dequeuedOf, ← h,
          List.append_assoc, List.append_nil, List.singleton_append]
    | running i t =>
      simp only [set_worker]
      rw [enqueuedOf_CALL_HOOK_WORKER _ Event.post_task_hook rfl,
        dequeuedOf_CALL_HOOK_WORKER _ Event.post_task_hook rfl]
      simpa [enqueuedOf_append, dequeuedOf_append, enqueuedOf, dequeuedOf] using h
    | returned => exact h

theorem FifoInv_apply (s : SQMW) (a : Action) (h : FifoInv s) : FifoInv (apply s a) := by
  unfold apply
  split
  · cases a with
    | run t => exact FifoInv_run_locked _ t (FifoInv_check_spawn s h)
    | check_spawn => exact FifoInv_check_spawn s h
    | enqueue t => exact FifoInv_run_locked s t h
    | stop => exact h
    | register_hooks b => exact h
    | worker k => exact FifoInv_step s k h
  · exact h

theorem FifoInv_exec (as : List Action) (s : SQMW) (h : FifoInv s) : FifoInv (exec s as) := by
  induction as generalizing s with
  | nil => exact h
  | cons a as ih => exact ih _ (FifoInv_apply s a h)

theorem FifoInv_create (pool_size max_pool_size : Nat) :
    FifoInv (create pool_size max_pool_size) := by
  rw [create_eq]
  simp [FifoInv, members, enqueuedOf, dequeuedOf]

/-! ### The counters -/

theorem CountInv_step (s : SQMW) (k : Nat) (h : CountInv s) : CountInv (Worker.step s k) := by
  obtain ⟨h1, h2, h3, h4⟩ := h
  unfold Worker.step
  unfold waiters at h1
  unfold workers at h2
  unfold in_transit at h3
  cases hk : s._pool[k]? with
  | none => exact ⟨h1, h2, h3, h4⟩
  | some w =>
    obtain ⟨n, pc⟩ := w
    have Ws := fun a e => countP_set_same (fun w : Worker => w.pc.is_waiting) s._pool k _ a hk e
    have Wg := fun a e1 e2 => countP_set_gain (fun w : Worker => w.pc.is_waiting) s._pool k _ a hk e1 e2
    have Wl := fun a e1 e2 => countP_set_loss (fun w : Worker => w.pc.is_waiting) s._pool k _ a hk e1 e2
    have Wp := fun e => countP_pos_of_getElem? (fun w : Worker => w.pc.is_waiting) s._pool k _ hk e
    have Rs := fun a e => countP_set_same (fun w : Worker => w.pc.is_working) s._pool k _ a hk e
    have Rg := fun a e1 e2 => countP_set_gain (fun w : Worker => w.pc.is_working) s._pool k _ a hk e1 e2
    have Rl := fun a e1 e2 => countP_set_loss (fun w : Worker => w.pc.is_working) s._pool k _ a hk e1 e2
    have Rp := fun e => countP_pos_of_getElem? (fun w : Worker => w.pc.is_working) s._pool k _ hk e
    have Us := fun a e => countP_set_same (fun w : Worker => w.pc.uncounted) s._pool k _ a hk e
    have Ug := fun a e1 e2 => countP_set_gain (fun w : Worker => w.pc.uncounted) s._pool k _ a hk e1 e2
    have Ul := fun a e1 e2 => countP_set_loss (fun w : Worker => w.pc.uncounted) s._pool k _ a hk e1 e2
    have Up := fun e => countP_pos_of_getElem? (fun w : Worker => w.pc.uncounted) s._pool k _ hk e
    cases pc with
    | loop_test i =>
      dsimp only
      have up := Up rfl
      split
      · have w1 := Wg ⟨n, Pc.cv_wait i⟩ rfl rfl
        have r1 := Rs ⟨n, Pc.cv_wait i⟩ rfl
        have u1 := Ul ⟨n, Pc.cv_wait i⟩ rfl rfl
        have e1 : size_inc s._waiting_threads = s._waiting_threads + 1 :=
          size_inc_of_lt _ (by omega)
        constructor <;> simp only [set_worker, waiters, workers, in_transit, e1] <;> omega
      · have w1 := Ws ⟨n, Pc.returned⟩ rfl
        have r1 := Rs ⟨n, Pc.returned⟩ rfl
        have u1 := Ul ⟨n, Pc.returned⟩ rfl rfl
        constructor <;> simp only [set_worker, waiters, workers, in_transit] <;> omega
    | cv_wait i =>
      dsimp only
      split
      · have w1 := Wl ⟨n, Pc.returned⟩ rfl rfl
        have r1 := Rs ⟨n, Pc.returned⟩ rfl
        have u1 := Us ⟨n, Pc.returned⟩ rfl
        constructor <;> simp only [set_worker, waiters, workers, in_transit] <;> omega
      · have w1 := Ws ⟨n, Pc.woken i⟩ rfl
        have r1 := Rs ⟨n, Pc.woken i⟩ rfl
        have u1 := Us ⟨n, Pc.woken i⟩ rfl
        constructor <;>
          simp only [set_worker, waiters, workers, in_transit, CALL_HOOK_WORKER_pool,
            CALL_HOOK_WORKER_waiting, CALL_HOOK_WORKER_working, CALL_HOOK_WORKER_max] <;> omega
    | woken i =>
      dsimp only
      have wp := Wp rfl
      have w1 := Wl ⟨n, Pc.left_waiting i⟩ rfl rfl
      have r1 := Rs ⟨n, Pc.left_waiting i⟩ rfl
      have u1 := Ug ⟨n, Pc.left_waiting i⟩ rfl rfl
      have e1 : size_dec s._waiting_threads = s._waiting_threads - 1 :=
        size_dec_of_pos _ (by omega)
      constructor <;> simp only [set_worker, waiters, workers, in_transit, e1] <;> omega
    | left_waiting i =>
      dsimp only
      have up := Up rfl
      have w1 := Ws ⟨n, Pc.counted i⟩ rfl
      have r1 := Rg ⟨n, Pc.counted i⟩ rfl rfl
      have u1 := Ul ⟨n, Pc.counted i⟩ rfl rfl
      have e1 : size_inc s._working_threads = s._working_threads + 1 :=
        size_inc_of_lt _ (by omega)
      constructor <;> simp only [set_worker, waiters, workers, in_transit, e1] <;> omega
    | counted i =>
      dsimp only
      cases htk : s._tasks with
      | nil => exact ⟨h1, h2, h3, h4⟩
      | cons t rest =>
        have w1 := Ws ⟨n, Pc.running i t⟩ rfl
        have r1 := Rs ⟨n, Pc.running i t⟩ rfl
        have u1 := Us ⟨n, Pc.running i t⟩ rfl
        constructor <;> simp only [set_worker, waiters, workers, in_transit] <;> omega
    | running i t =>
      dsimp only
      have rp := Rp rfl
      have w1 := Ws ⟨n, Pc.loop_test (size_inc i)⟩ rfl
      have r1 := Rl ⟨n, Pc.loop_test (size_inc i)⟩ rfl rfl
      have u1 := Ug ⟨n, Pc.loop_test (size_inc i)⟩ rfl rfl
      have e1 : size_dec s._working_threads = s._working_threads - 1 :=
        size_dec_of_pos _ (by omega)
      constructor <;>
        simp only [set_worker, waiters, workers, in_transit, CALL_HOOK_WORKER_pool,
            CALL_HOOK_WORKER_waiting, CALL_HOOK_WORKER_working, CALL_HOOK_WORKER_max, e1] <;> omega
    | returned => exact ⟨h1, h2, h3, h4⟩

theorem in_transit_eq_zero_of_all (s : SQMW)
    (h : s._pool.all (fun w => !w.pc.uncounted) = true) : in_transit s = 0 := by
  unfold in_transit
  rw [List.countP_eq_zero]
  intro w hw
  have := List.all_eq_true.mp h w hw
  simpa using this

theorem CountInv_check_spawn (s : SQMW) (h : CountInv s) (hq : in_transit s = 0) :
    CountInv (check_spawn_single_worker s) := by
  obtain ⟨h1, h2, h3, h4⟩ := h
  unfold check_spawn_single_worker
  split
  · split
    · rename_i hlt
      rw [size_add_of_lt _ _ (by omega)] at hlt
      unfold waiters at h1
      unfold workers at h2
      unfold in_transit at h3 hq
      have w1 := countP_concat_neg (fun w : Worker => w.pc.is_waiting) s._pool
        ⟨1, Pc.loop_test 0⟩ rfl
      have r1 := countP_concat_neg (fun w : Worker => w.pc.is_working) s._pool
        ⟨1, Pc.loop_test 0⟩ rfl
      have u1 := countP_concat_pos (fun w : Worker => w.pc.uncounted) s._pool
        ⟨1, Pc.loop_test 0⟩ rfl
      unfold add_worker CALL_HOOK_POOL
      split <;> constructor <;> simp only [waiters, workers, in_transit] <;> omega
    · exact ⟨h1, h2, h3, h4⟩
  · exact ⟨h1, h2, h3, h4⟩

theorem CountInv_run_locked (s : SQMW) (t : Task) (h : CountInv s) : CountInv (run_locked s t) := by
  obtain ⟨h1, h2, h3, h4⟩ := h
  unfold run_locked
  split
  · exact ⟨h1, h2, h3, h4⟩
  · exact ⟨h1, h2, h3, h4⟩

theorem CountInv_apply (s : SQMW) (a : Action) (h : CountInv s)
    (hq : (enabled s a && a.reads_counters) = true → in_transit s = 0) :
    CountInv (apply s a) := by
  unfold apply
  split
  · rename_i he
    cases a with
    | run t => exact CountInv_run_locked _ t (CountInv_check_spawn s h (hq (by simp [he, Action.reads_counters])))
    | check_spawn => exact CountInv_check_spawn s h (hq (by simp [he, Action.reads_counters]))
    | enqueue t => exact CountInv_run_locked s t h
    | stop => exact ⟨h.1, h.2, h.3, h.4⟩
    | register_hooks b => exact ⟨h.1, h.2, h.3, h.4⟩
    | worker k => exact CountInv_step s k h
  · exact h

theorem CountInv_exec (as : List Action) (s : SQMW) (h : CountInv s)
    (hs : settled_spawns s as = true) : CountInv (exec s as) := by
  induction as generalizing s with
  | nil => exact h
  | cons a as ih =>
    simp only [settled_spawns, Bool.and_eq_true, Bool.or_eq_true, Bool.not_eq_true'] at hs
    refine ih _ (CountInv_apply s a h ?_) hs.2
    intro he
    rcases hs.1 with h0 | h0
    · rw [he] at h0; cases h0
    · exact in_transit_eq_zero_of_all s h0

theorem no_racing_of_settled (as : List Action) (s : SQMW)
    (h : settled_spawns s as = true) : no_racing_spawns s as = true := by
  induction as generalizing s with
  | nil => rfl
  | cons a as ih =>
    simp only [settled_spawns, Bool.and_eq_true, Bool.or_eq_true, Bool.not_eq_true'] at h
    simp only [no_racing_spawns, Bool.and_eq_true, Bool.or_eq_true, Bool.not_eq_true']
    refine ⟨?_, ih _ h.2⟩
    rcases h.1 with h0 | h0
    · exact Or.inl h0
    · refine Or.inr (List.all_eq_true.mpr ?_)
      intro w hw
      have := List.all_eq_true.mp h0 w hw
      obtain ⟨n, pc⟩ := w
      cases pc with
      | loop_test i => simp [Pc.uncounted] at this
      | left_waiting i => simp [Pc.uncounted] at this
      | _ => rfl

theorem CountInv_create (pool_size max_pool_size : Nat) (h : pool_size ≤ max_pool_size)
    (hm : max_pool_size < SIZE_MOD) : CountInv (create pool_size max_pool_size) := by
  rw [create_eq]
  constructor <;>
    simp [members, waiters, workers, in_transit, List.countP_replicate, Pc.is_waiting,
      Pc.is_working, Pc.uncounted]
  · exact h
  · exact hm

/-! ### After `stop` -/

theorem Quiet_refl (s : SQMW) : Quiet s s := ⟨rfl, rfl, rfl⟩

theorem Quiet_trans {s r q : SQMW} (h1 : Quiet s r) (h2 : Quiet r q) : Quiet s q :=
  ⟨h2.1.trans h1.1, h2.2.1.trans h1.2.1, h2.2.2.trans h1.2.2⟩

theorem Frozen_check_spawn (s : SQMW) (h : Frozen s) :
    Frozen (check_spawn_single_worker s) ∧ Quiet s (check_spawn_single_worker s) := by
  obtain ⟨h1, h2⟩ := h
  unfold holders at h2
  have c1 := countP_concat_neg (fun w : Worker => w.pc.in_critical) s._pool
    ⟨1, Pc.loop_test 0⟩ rfl
  have c2 := countP_concat_neg (fun w : Worker => w.pc.is_running) s._pool
    ⟨1, Pc.loop_test 0⟩ rfl
  unfold check_spawn_single_worker
  split
  · split
    · unfold add_worker CALL_HOOK_POOL Frozen Quiet
      split
      · simp only [holders, in_flight, dequeuedOf_append, executedOf_append, dequeuedOf,
          executedOf, List.append_nil, c1, c2, h1, h2, and_self]
      · simp only [holders, in_flight, c1, c2, h1, h2, and_self]
    · exact ⟨⟨h1, h2⟩, Quiet_refl s⟩
  · exact ⟨⟨h1, h2⟩, Quiet_refl s⟩

theorem Frozen_run_locked (s : SQMW) (t : Task) (h : Frozen s) : run_locked s t = s := by
  unfold run_locked
  rw [if_pos h.1]

theorem Frozen_step (s : SQMW) (k : Nat) (h : Frozen s) :
    Frozen (Worker.step s k) ∧ Quiet s (Worker.step s k) := by
  obtain ⟨h1, h2⟩ := h
  unfold holders at h2
  unfold Worker.step
  cases hk : s._pool[k]? with
  | none => exact ⟨⟨h1, h2⟩, Quiet_refl s⟩
  | some w =>
    obtain ⟨n, pc⟩ := w
    have Cs := fun a e => countP_set_same (fun w : Worker => w.pc.in_critical) s._pool k _ a hk e
    have Cp := fun e => countP_pos_of_getElem? (fun w : Worker => w.pc.in_critical) s._pool k _ hk e
    have Fs := fun a e => countP_set_same (fun w : Worker => w.pc.is_running) s._pool k _ a hk e
    have Fl := fun a e1 e2 => countP_set_loss (fun w : Worker => w.pc.is_running) s._pool k _ a hk e1 e2
    cases pc with
    | loop_test i =>
      dsimp only
      split
      · have c1 := Cs ⟨n, Pc.cv_wait i⟩ rfl
        have f1 := Fs ⟨n, Pc.cv_wait i⟩ rfl
        simp only [Frozen, Quiet, set_worker, holders, in_flight, c1, f1, h1, h2, and_self]
      · have c1 := Cs ⟨n, Pc.returned⟩ rfl
        have f1 := Fs ⟨n, Pc.returned⟩ rfl
        simp only [Frozen, Quiet, set_worker, holders, in_flight, c1, f1, h1, h2, and_self]
    | cv_wait i =>
      dsimp only
      rw [if_pos h1]
      have c1 := Cs ⟨n, Pc.returned⟩ rfl
      have f1 := Fs ⟨n, Pc.returned⟩ rfl
      simp only [Frozen, Quiet, set_worker, holders, in_flight, c1, f1, h1, h2, and_self]
    | woken i => have := Cp rfl; omega
    | left_waiting i => have := Cp rfl; omega
    | counted i => have := Cp rfl; omega
    | running i t =>
      dsimp only
      have c1 := Cs ⟨n, Pc.loop_test (size_inc i)⟩ rfl
      have f1 := Fl ⟨n, Pc.loop_test (size_inc i)⟩ rfl rfl
      refine ⟨⟨by simpa [set_worker] using h1, by simpa [set_worker, holders, c1] using h2⟩, ?_, ?_, ?_⟩
      · simp [set_worker]
      · simp only [set_worker]
        rw [dequeuedOf_CALL_HOOK_WORKER _ Event.post_task_hook rfl]
        simp [dequeuedOf_append, dequeuedOf]
      · simp only [set_worker, in_flight]
        rw [executedOf_CALL_HOOK_WORKER _ Event.post_task_hook rfl]
        simp only [executedOf_append, executedOf, List.length_append, List.length_singleton,
          List.length_nil, CALL_HOOK_WORKER_pool]
        omega
    | returned => exact ⟨⟨h1, h2⟩, Quiet_refl s⟩

theorem Frozen_apply (s : SQMW) (a : Action) (h : Frozen s) :
    Frozen (apply s a) ∧ Quiet s (apply s a) := by
  unfold apply
  split
  · cases a with
    | run t =>
      have h1 := Frozen_check_spawn s h
      simp only [effect, run]
      rw [Frozen_run_locked _ t h1.1]
      exact h1
    | check_spawn => exact Frozen_check_spawn s h
    | enqueue t =>
      simp only [effect]
      rw [Frozen_run_locked _ t h]
      exact ⟨h, Quiet_refl s⟩
    | stop => exact ⟨⟨rfl, h.2⟩, Quiet_refl s⟩
    | register_hooks b => exact ⟨⟨h.1, h.2⟩, Quiet_refl s⟩
    | worker k => exact Frozen_step s k h
  · exact ⟨h, Quiet_refl s⟩

theorem Frozen_exec (as : List Action) (s : SQMW) (h : Frozen s) :
    Frozen (exec s as) ∧ Quiet s (exec s as) := by
  induction as generalizing s with
  | nil => exact ⟨h, Quiet_refl s⟩
  | cons a as ih =>
    have h1 := Frozen_apply s a h
    have h2 := ih _ h1.1
    exact ⟨h2.1, Quiet_trans h1.2 h2.2⟩

theorem Frozen_of_LockInv (s : SQMW) (h : LockInv s) (hs : s._stop = true) : Frozen s := by
  refine ⟨hs, ?_⟩
  rw [h.holders_eq]
  cases hl : s._tasks_lock
  · rfl
  · have := h.locked_running hl
    rw [hs] at this
    cases this

/-! ### A thread running alone -/

theorem getElem?_set_self_of_some {α : Type} (l : List α) (k : Nat) (w a : α)
    (h : l[k]? = some w) : (l.set k a)[k]? = some a := by
  obtain ⟨hk, _⟩ := List.getElem?_eq_some.mp h
  simp [List.getElem?_set, hk]

theorem exec_append (s : SQMW) (as bs : List Action) :
    exec s (as ++ bs) = exec (exec s as) bs := by
  simp [exec, List.foldl_append]

theorem solo_add (k m n : Nat) : solo k (m + n) = solo k m ++ solo k n := by
  unfold solo
  exact List.replicate_add m n _

theorem apply_worker_not_waiting (s : SQMW) (k : Nat) (w : Worker) (h : s._pool[k]? = some w)
    (hw : ∀ i, w.pc ≠ Pc.cv_wait i) : apply s (Action.worker k) = Worker.step s k := by
  simp only [apply, enabled, effect]
  unfold Worker.ready
  rw [h]
  obtain ⟨n, pc⟩ := w
  cases pc <;> simp_all

theorem apply_worker_waiting (s : SQMW) (k n i : Nat) (h : s._pool[k]? = some ⟨n, Pc.cv_wait i⟩)
    (hl : s._tasks_lock = false) (ht : s._stop = true ∨ s._tasks ≠ []) :
    apply s (Action.worker k) = Worker.step s k := by
  simp only [apply, enabled, effect]
  unfold Worker.ready
  rw [h]
  have : (!s._tasks_lock && (s._stop || !s._tasks.isEmpty)) = true := by
    rcases ht with ht | ht
    · simp [hl, ht]
    · simp [hl, ht]
  simp only [this, if_true]

theorem view_loop_test (s : SQMW) (k nb i : Nat)
    (hk : s._pool[k]? = some ⟨nb, Pc.loop_test i⟩) :
    View s (apply s (Action.worker k)) k
      ⟨nb, if Worker.loop_cond i nb then Pc.cv_wait i else Pc.returned⟩
      s._tasks_lock s._tasks [] := by
  rw [apply_worker_not_waiting s k _ hk (by simp)]
  have hg := fun a => getElem?_set_self_of_some s._pool k _ a hk
  unfold Worker.step
  rw [hk]
  dsimp only
  split <;> simp [View, set_worker, hg]

theorem view_cv_wait (s : SQMW) (k nb i : Nat)
    (hk : s._pool[k]? = some ⟨nb, Pc.cv_wait i⟩) (hs : s._stop = false)
    (hl : s._tasks_lock = false) (ht : s._tasks ≠ []) :
    View s (apply s (Action.worker k)) k ⟨nb, Pc.woken i⟩ true s._tasks [] := by
  rw [apply_worker_waiting s k nb i hk hl (Or.inr ht)]
  have hg := fun a => getElem?_set_self_of_some s._pool k _ a hk
  unfold Worker.step
  rw [hk]
  dsimp only
  rw [hs]
  simp only [View, set_worker, CALL_HOOK_WORKER_pool, CALL_HOOK_WORKER_stop,
    CALL_HOOK_WORKER_lock, CALL_HOOK_WORKER_tasks, hg, hs, List.append_nil,
    executedOf_CALL_HOOK_WORKER _ Event.pre_task_hook rfl, and_self, Bool.false_eq_true,
    if_false]

theorem view_woken (s : SQMW) (k nb i : Nat) (hk : s._pool[k]? = some ⟨nb, Pc.woken i⟩) :
    View s (apply s (Action.worker k)) k ⟨nb, Pc.left_waiting i⟩ s._tasks_lock s._tasks [] := by
  rw [apply_worker_not_waiting s k _ hk (by simp)]
  have hg := fun a => getElem?_set_self_of_some s._pool k _ a hk
  unfold Worker.step
  rw [hk]
  simp [View, set_worker, hg]

theorem view_left_waiting (s : SQMW) (k nb i : Nat)
    (hk : s._pool[k]? = some ⟨nb, Pc.left_waiting i⟩) :
    View s (apply s (Action.worker k)) k ⟨nb, Pc.counted i⟩ s._tasks_lock s._tasks [] := by
  rw [apply_worker_not_waiting s k _ hk (by simp)]
  have hg := fun a => getElem?_set_self_of_some s._pool k _ a hk
  unfold Worker.step
  rw [hk]
  simp [View, set_worker, hg]

theorem view_counted (s : SQMW) (k nb i : Nat) (t : Task) (rest : List Task)
    (hk : s._pool[k]? = some ⟨nb, Pc.counted i⟩) (ht : s._tasks = t :: rest) :
    View s (apply s (Action.worker k)) k ⟨nb, Pc.running i t⟩ false rest [] := by
  rw [apply_worker_not_waiting s k _ hk (by simp)]
  have hg := fun a => getElem?_set_self_of_some s._pool k _ a hk
  unfold Worker.step
  rw [hk]
  dsimp only
  rw [ht]
  simp [View, set_worker, hg, executedOf_append, executedOf]

theorem view_running (s : SQMW) (k nb i : Nat) (t : Task)
    (hk : s._pool[k]? = some ⟨nb, Pc.running i t⟩) :
    View s (apply s (Action.worker k)) k ⟨nb, Pc.loop_test (size_inc i)⟩ s._tasks_lock
      s._tasks [t] := by
  rw [apply_worker_not_waiting s k _ hk (by simp)]
  have hg := fun a => getElem?_set_self_of_some s._pool k _ a hk
  unfold Worker.step
  rw [hk]
  simp only [View, set_worker, CALL_HOOK_WORKER_pool, CALL_HOOK_WORKER_stop,
    CALL_HOOK_WORKER_lock, CALL_HOOK_WORKER_tasks, hg,
    executedOf_CALL_HOOK_WORKER _ Event.post_task_hook rfl, executedOf_append, executedOf,
    and_self]

theorem one_iteration (s : SQMW) (k nb i : Nat) (t : Task) (rest : List Task)
    (h : SoloAt s k nb i) (hc : Worker.loop_cond i nb = true) (ht : s._tasks = t :: rest) :
    SoloAt (exec s (solo k 6)) k nb (size_inc i) ∧ (exec s (solo k 6))._tasks = rest ∧
      executedOf (exec s (solo k 6)).trace = executedOf s.trace ++ [t] := by
  obtain ⟨hk, hs, hl⟩ := h
  have hx : exec s (solo k 6) =
      apply (apply (apply (apply (apply (apply s (Action.worker k)) (Action.worker k))
        (Action.worker k)) (Action.worker k)) (Action.worker k)) (Action.worker k) := by
    simp only [exec, solo, List.replicate, List.foldl]
  rw [hx]
  obtain ⟨a1, a2, a3, a4, a5⟩ := view_loop_test s k nb i hk
  rw [hc] at a1
  simp only [if_true] at a1
  generalize apply s (Action.worker k) = s1 at a1 a2 a3 a4 a5
  obtain ⟨b1, b2, b3, b4, b5⟩ := view_cv_wait s1 k nb i a1 (by rw [a2, hs]) (by rw [a3, hl])
    (by rw [a4, ht]; simp)
  generalize apply s1 (Action.worker k) = s2 at b1 b2 b3 b4 b5
  obtain ⟨c1, c2, c3, c4, c5⟩ := view_woken s2 k nb i b1
  generalize apply s2 (Action.worker k) = s3 at c1 c2 c3 c4 c5
  obtain ⟨d1, d2, d3, d4, d5⟩ := view_left_waiting s3 k nb i c1
  generalize apply s3 (Action.worker k) = s4 at d1 d2 d3 d4 d5
  obtain ⟨e1, e2, e3, e4, e5⟩ := view_counted s4 k nb i t rest d1
    (by rw [d4, c4, b4, a4, ht])
  generalize apply s4 (Action.worker k) = s5 at e1 e2 e3 e4 e5
  obtain ⟨f1, f2, f3, f4, f5⟩ := view_running s5 k nb i t e1
  generalize apply s5 (Action.worker k) = s6 at f1 f2 f3 f4 f5
  refine ⟨⟨f1, ?_, ?_⟩, ?_, ?_⟩
  · rw [f2, e2, d2, c2, b2, a2, hs]
  · rw [f3, e3]
  · rw [f4, e4]
  · rw [f5, e5, d5, c5, b5, a5]
    simp

theorem iterations (ts : List Task) (s : SQMW) (k nb i : Nat) (rest : List Task)
    (hi : i < SIZE_MOD) (h : SoloAt s k nb i)
    (hc : ∀ j, j < ts.length → Worker.loop_cond (counter_after i j) nb = true)
    (ht : s._tasks = ts ++ rest) :
    SoloAt (exec s (solo k (6 * ts.length))) k nb (counter_after i ts.length) ∧
      (exec s (solo k (6 * ts.length)))._tasks = rest ∧
      executedOf (exec s (solo k (6 * ts.length))).trace = executedOf s.trace ++ ts := by
  induction ts generalizing s i with
  | nil =>
    have : counter_after i 0 = i := Nat.mod_eq_of_lt hi
    simpa [solo, exec, this] using ⟨h, ht⟩
  | cons t ts ih =>
    have h0 : Worker.loop_cond i nb = true := by
      have := hc 0 (by simp)
      rwa [show counter_after i 0 = i from Nat.mod_eq_of_lt hi] at this
    obtain ⟨g1, g2, g3⟩ := one_iteration s k nb i t (ts ++ rest) h h0 (by simpa using ht)
    have hlen : 6 * (t :: ts).length = 6 + 6 * ts.length := by
      simp only [List.length_cons]; omega
    rw [hlen, solo_add, exec_append]
    have hstep : ∀ j, counter_after (size_inc i) j = counter_after i (j + 1) := by
      intro j
      unfold counter_after size_inc SIZE_MOD
      omega
    obtain ⟨q1, q2, q3⟩ := ih (exec s (solo k 6)) (size_inc i) (size_inc_lt i) g1
      (fun j hj => by rw [hstep]; exact hc (j + 1) (by simpa using hj)) g2
    refine ⟨?_, q2, ?_⟩
    · rw [hstep] at q1
      simpa using q1
    · rw [q3, g3]
      simp

/-! ### The sizes, the loop condition, a returned thread -/

theorem check_spawn_sizes (s : SQMW) :
    (check_spawn_single_worker s)._max_pool_size = s._max_pool_size ∧
      (check_spawn_single_worker s)._pool_size = s._pool_size := by
  unfold check_spawn_single_worker add_worker CALL_HOOK_POOL
  split
  · split
    · split <;> exact ⟨rfl, rfl⟩
    · exact ⟨rfl, rfl⟩
  · exact ⟨rfl, rfl⟩

theorem run_locked_sizes (s : SQMW) (t : Task) :
    (run_locked s t)._max_pool_size = s._max_pool_size ∧
      (run_locked s t)._pool_size = s._pool_size := by
  unfold run_locked
  split <;> exact ⟨rfl, rfl⟩

theorem step_sizes (s : SQMW) (k : Nat) :
    (Worker.step s k)._max_pool_size = s._max_pool_size ∧
      (Worker.step s k)._pool_size = s._pool_size := by
  unfold Worker.step
  cases hk : s._pool[k]? with
  | none => exact ⟨rfl, rfl⟩
  | some w =>
    obtain ⟨n, pc⟩ := w
    cases pc with
    | loop_test i => dsimp only; split <;> exact ⟨rfl, rfl⟩
    | cv_wait i =>
      dsimp only
      split
      · exact ⟨rfl, rfl⟩
      · unfold CALL_HOOK_WORKER; split <;> exact ⟨rfl, rfl⟩
    | woken i => exact ⟨rfl, rfl⟩
    | left_waiting i => exact ⟨rfl, rfl⟩
    | counted i => dsimp only; split <;> exact ⟨rfl, rfl⟩
    | running i t => dsimp only; unfold CALL_HOOK_WORKER; split <;> exact ⟨rfl, rfl⟩
    | returned => exact ⟨rfl, rfl⟩

theorem apply_sizes (s : SQMW) (a : Action) :
    (apply s a)._max_pool_size = s._max_pool_size ∧ (apply s a)._pool_size = s._pool_size := by
  unfold apply
  split
  · cases a with
    | run t =>
      have h1 := check_spawn_sizes s
      have h2 := run_locked_sizes (check_spawn_single_worker s) t
      exact ⟨h2.1.trans h1.1, h2.2.trans h1.2⟩
    | check_spawn => exact check_spawn_sizes s
    | enqueue t => exact run_locked_sizes s t
    | stop => exact ⟨rfl, rfl⟩
    | register_hooks b => exact ⟨rfl, rfl⟩
    | worker k => exact step_sizes s k
  · exact ⟨rfl, rfl⟩

theorem exec_sizes (as : List Action) (s : SQMW) :
    (exec s as)._max_pool_size = s._max_pool_size ∧ (exec s as)._pool_size = s._pool_size := by
  induction as generalizing s with
  | nil => exact ⟨rfl, rfl⟩
  | cons a as ih =>
    have h1 := apply_sizes s a
    have h2 := ih (apply s a)
    exact ⟨h2.1.trans h1.1, h2.2.trans h1.2⟩

theorem create_sizes (pool_size max_pool_size : Nat) :
    (create pool_size max_pool_size)._max_pool_size = max_pool_size ∧
      (create pool_size max_pool_size)._pool_size = pool_size := by
  rw [create_eq]
  exact ⟨rfl, rfl⟩

theorem loop_cond_budget (N j : Nat) (hN : N < SIZE_MOD) (hj : j < N) :
    Worker.loop_cond (counter_after 0 j) N = true := by
  have : counter_after 0 j = j := by
    unfold counter_after SIZE_MOD at *; omega
  rw [this]
  unfold Worker.loop_cond
  simp
  omega

theorem loop_cond_zero (i : Nat) : Worker.loop_cond i 0 = true := by
  unfold Worker.loop_cond
  simp

theorem exec_solo_returned (m : Nat) (s : SQMW) (k nb : Nat)
    (hk : s._pool[k]? = some { nb_task := nb, pc := Pc.returned }) : exec s (solo k m) = s := by
  induction m with
  | zero => rfl
  | succ m ih =>
    rw [solo_add, exec_append, ih]
    have : exec s (solo k 1) = apply s (Action.worker k) := by
      simp only [exec, solo, List.replicate, List.foldl]
    rw [this, apply_worker_not_waiting s k _ hk (by simp)]
    unfold Worker.step
    rw [hk]

/-! ### The loop variable and the budget -/

theorem BudgetInv_of_pool_eq {s r : SQMW} (h : r._pool = s._pool) (hs : BudgetInv s) :
    BudgetInv r := by
  intro k w hk
  rw [h] at hk
  exact hs k w hk

theorem BudgetInv_set (s r : SQMW) (k : Nat) (a : Worker) (hs : BudgetInv s)
    (hr : r._pool = s._pool.set k a) (ha : a.nb_task < SIZE_MOD ∧ a.within_budget = true) :
    BudgetInv r := by
  intro j w hj
  rw [hr, List.getElem?_set] at hj
  split at hj
  · split at hj
    · cases hj; exact ha
    · cases hj
  · exact hs j w hj

theorem BudgetInv_add_worker (s : SQMW) (nb : Nat) (hs : BudgetInv s) (hnb : nb < SIZE_MOD) :
    BudgetInv (add_worker s nb) := by
  intro j w hj
  unfold add_worker at hj
  simp only [List.getElem?_append] at hj
  split at hj
  · exact hs j w hj
  · rw [List.getElem?_cons] at hj
    split at hj
    · cases hj
      exact ⟨hnb, by simp [Worker.within_budget]⟩
    · simp at hj

theorem BudgetInv_check_spawn (s : SQMW) (hs : BudgetInv s) :
    BudgetInv (check_spawn_single_worker s) := by
  unfold check_spawn_single_worker
  split
  · split
    · refine BudgetInv_add_worker _ 1 ?_ (by unfold SIZE_MOD; omega)
      unfold CALL_HOOK_POOL
      split
      · exact BudgetInv_of_pool_eq rfl hs
      · exact hs
    · exact hs
  · exact hs

theorem BudgetInv_run_locked (s : SQMW) (t : Task) (hs : BudgetInv s) :
    BudgetInv (run_locked s t) := by
  unfold run_locked
  split
  · exact hs
  · exact BudgetInv_of_pool_eq rfl hs

theorem BudgetInv_step (s : SQMW) (k : Nat) (hs : BudgetInv s) : BudgetInv (Worker.step s k) := by
  unfold Worker.step
  cases hk : s._pool[k]? with
  | none => exact hs
  | some w =>
    obtain ⟨n, pc⟩ := w
    obtain ⟨h1, h2⟩ := hs k _ hk
    have h1 : n < SIZE_MOD := h1
    cases pc with
    | loop_test i =>
      dsimp only
      split
      · rename_i hc
        refine BudgetInv_set s _ k ⟨n, Pc.cv_wait i⟩ hs rfl ⟨h1, ?_⟩
        simp only [Worker.within_budget, Worker.loop_cond, Bool.or_eq_true, beq_iff_eq,
          decide_eq_true_eq, bne_iff_ne, ne_eq] at h2 hc ⊢
        omega
      · exact BudgetInv_set s _ k ⟨n, Pc.returned⟩ hs rfl ⟨h1, by simp [Worker.within_budget]⟩
    | cv_wait i =>
      dsimp only
      split
      · exact BudgetInv_set s _ k ⟨n, Pc.returned⟩ hs rfl ⟨h1, by simp [Worker.within_budget]⟩
      · exact BudgetInv_set s _ k ⟨n, Pc.woken i⟩ hs (by simp [set_worker]) ⟨h1, h2⟩
    | woken i => exact BudgetInv_set s _ k ⟨n, Pc.left_waiting i⟩ hs rfl ⟨h1, h2⟩
    | left_waiting i => exact BudgetInv_set s _ k ⟨n, Pc.counted i⟩ hs rfl ⟨h1, h2⟩
    | counted i =>
      dsimp only
      cases ht : s._tasks with
      | nil => exact BudgetInv_of_pool_eq rfl hs
      | cons t rest => exact BudgetInv_set s _ k ⟨n, Pc.running i t⟩ hs rfl ⟨h1, h2⟩
    | running i t =>
      refine BudgetInv_set s _ k ⟨n, Pc.loop_test (size_inc i)⟩ hs (by simp [set_worker])
        ⟨h1, ?_⟩
      simp only [Worker.within_budget, Bool.or_eq_true, beq_iff_eq, decide_eq_true_eq] at h2 ⊢
      unfold size_inc
      unfold SIZE_MOD at *
      omega
    | returned => exact hs

theorem BudgetInv_apply (s : SQMW) (a : Action) (hs : BudgetInv s) : BudgetInv (apply s a) := by
  unfold apply
  split
  · cases a with
    | run t => exact BudgetInv_run_locked _ t (BudgetInv_check_spawn s hs)
    | check_spawn => exact BudgetInv_check_spawn s hs
    | enqueue t => exact BudgetInv_run_locked s t hs
    | stop => exact BudgetInv_of_pool_eq rfl hs
    | register_hooks b => exact BudgetInv_of_pool_eq rfl hs
    | worker k => exact BudgetInv_step s k hs
  · exact hs

theorem BudgetInv_exec (as : List Action) (s : SQMW) (hs : BudgetInv s) :
    BudgetInv (exec s as) := by
  induction as generalizing s with
  | nil => exact hs
  | cons a as ih => exact ih _ (BudgetInv_apply s a hs)

theorem BudgetInv_create (pool_size max_pool_size : Nat) :
    BudgetInv (create pool_size max_pool_size) := by
  rw [create_eq]
  intro k w hk
  simp only [members] at hk
  have := List.getElem?_mem hk
  rw [List.mem_replicate] at this
  rw [this.2]
  exact ⟨by unfold SIZE_MOD; simp, by simp [Worker.within_budget]⟩

end SQMW

end ThreadPool

namespace ThreadPool

namespace SQMW

/-! ## Properties of the pool -/

/-- Claim C1: in every pool state, `check_spawn_single_worker` appends exactly
one thread with task budget 1 to `_pool`, and calls `on_worker_add` once when
a hook sink is registered, if and only if `_max_pool_size > _pool_size` and
`_working_threads + _waiting_threads < _max_pool_size`; otherwise the state is
left as it was.  The sum is the `std::size_t` sum the code computes, which is
the plain sum whenever the two counters do not add up to `SIZE_MOD`. -/
theorem check_spawn_admits_iff (s : SQMW) :
    ((check_spawn_single_worker s)._pool = s._pool ++ [{ nb_task := 1, pc := Pc.loop_test 0 }] ↔
        s._max_pool_size > s._pool_size ∧
          (s._working_threads + s._waiting_threads) % SIZE_MOD < s._max_pool_size) ∧
      (s._max_pool_size > s._pool_size ∧
          (s._working_threads + s._waiting_threads) % SIZE_MOD < s._max_pool_size →
        check_spawn_single_worker s =
          { s with
            _pool := s._pool ++ [{ nb_task := 1, pc := Pc.loop_test 0 }],
            trace := if s._hooks then s.trace ++ [Event.on_worker_add] else s.trace }) ∧
      (¬ (s._max_pool_size > s._pool_size ∧
          (s._working_threads + s._waiting_threads) % SIZE_MOD < s._max_pool_size) →
        check_spawn_single_worker s = s) ∧
      (s._working_threads + s._waiting_threads < SIZE_MOD →
        (s._working_threads + s._waiting_threads) % SIZE_MOD =
          s._working_threads + s._waiting_threads) := by
  refine ⟨?_, ?_, ?_, fun h => Nat.mod_eq_of_lt h⟩
  · unfold check_spawn_single_worker size_add add_worker CALL_HOOK_POOL
    constructor
    · intro h
      by_contra hc
      rw [not_and_or] at hc
      rcases hc with hc | hc
      · rw [if_neg hc] at h
        simp at h
      · by_cases h1 : s._max_pool_size > s._pool_size
        · rw [if_pos h1, if_neg hc] at h
          simp at h
        · rw [if_neg h1] at h
          simp at h
    · rintro ⟨h1, h2⟩
      rw [if_pos h1, if_pos h2]
      split <;> rfl
  · rintro ⟨h1, h2⟩
    unfold check_spawn_single_worker size_add add_worker CALL_HOOK_POOL
    rw [if_pos h1, if_pos h2]
    cases hh : s._hooks <;> simp [hh]
  · intro hc
    unfold check_spawn_single_worker size_add
    rw [not_and_or] at hc
    rcases hc with hc | hc
    · rw [if_neg hc]
    · rw [if_neg hc]
      split <;> rfl

/-- The statement of `check_spawn_admits_iff` on a pool of sizes 1 and 2 with
a hook sink, one thread waiting and none working. -/
theorem check_spawn_admits_iff_witness :
    check_spawn_single_worker
        { members 1 2 with _waiting_threads := 1, _hooks := true } =
      { members 1 2 with
        _waiting_threads := 1, _hooks := true,
        _pool := [{ nb_task := 1, pc := Pc.loop_test 0 }],
        trace := [Event.on_worker_add] } :=
  (check_spawn_admits_iff { members 1 2 with _waiting_threads := 1, _hooks := true }).2.1
    (by decide)

/-- Claim C2: when the stop flag is set, `run` leaves the task queue exactly
as it was, whatever the task: the call does what its spawn check does and
nothing more, no `enqueued` event is recorded, and in a pool reached from its
constructor no later schedule changes the queue or dequeues anything, so the
task is never handed to a worker. -/
theorem run_on_stopped_pool (s : SQMW) (t : Task) (h : s._stop = true) :
    (run s t)._tasks = s._tasks ∧
      run s t = check_spawn_single_worker s ∧
      enqueuedOf (run s t).trace = enqueuedOf s.trace ∧
      ∀ pool_size max_pool_size before after,
        s = exec (create pool_size max_pool_size) before →
          (exec (run s t) after)._tasks = s._tasks ∧
            dequeuedOf (exec (run s t) after).trace = dequeuedOf s.trace := by
  have hr : run s t = check_spawn_single_worker s := by
    unfold run run_locked
    rw [check_spawn_stop, if_pos h]
  refine ⟨?_, hr, ?_, ?_⟩
  · rw [hr, check_spawn_tasks]
  · rw [hr, check_spawn_enqueuedOf]
  · intro ps mps before after hs
    have hl : LockInv s := hs ▸ LockInv_exec before _ (LockInv_create ps mps)
    have hf := Frozen_check_spawn s (Frozen_of_LockInv s hl h)
    have hq := Quiet_trans hf.2 (Frozen_exec after _ hf.1).2
    rw [hr]
    exact ⟨hq.1, hq.2.1⟩

/-- The statement of `run_on_stopped_pool` on a pool of one worker that was
given task 5 and then stopped: submitting task 7 leaves `[5]` queued. -/
theorem run_on_stopped_pool_witness :
    (exec (create 1 1) [Action.run 5, Action.stop])._stop = true ∧
      (run (exec (create 1 1) [Action.run 5, Action.stop]) 7)._tasks = [5] :=
  ⟨by decide,
    (run_on_stopped_pool (exec (create 1 1) [Action.run 5, Action.stop]) 7 (by decide)).1⟩

/-- Claim C3: on a pool that is not stopped `run` appends its task at the back
of the queue and leaves the earlier entries in place; the dequeue of lines
131-132 removes the front entry and hands it to the thread; so in every state
reached from the constructor the tasks dequeued so far, followed by the queue,
are the tasks enqueued so far, in enqueue order: the dequeued sequence is an
initial segment of the enqueued one. -/
theorem fifo_order :
    (∀ (s : SQMW) (t : Task), s._stop = false →
        (run s t)._tasks = s._tasks ++ [t] ∧
          enqueuedOf (run s t).trace = enqueuedOf s.trace ++ [t]) ∧
      (∀ (s : SQMW) (k nb i : Nat) (t : Task) (rest : List Task),
        s._pool[k]? = some { nb_task := nb, pc := Pc.counted i } → s._tasks = t :: rest →
          (Worker.step s k)._tasks = rest ∧
            (Worker.step s k)._pool[k]? = some { nb_task := nb, pc := Pc.running i t } ∧
            dequeuedOf (Worker.step s k).trace = dequeuedOf s.trace ++ [t]) ∧
      (∀ (pool_size max_pool_size : Nat) (as : List Action),
        dequeuedOf (exec (create pool_size max_pool_size) as).trace ++
            (exec (create pool_size max_pool_size) as)._tasks =
          enqueuedOf (exec (create pool_size max_pool_size) as).trace ∧
        dequeuedOf (exec (create pool_size max_pool_size) as).trace <+:
          enqueuedOf (exec (create pool_size max_pool_size) as).trace) := by
  refine ⟨?_, ?_, ?_⟩
  · intro s t hs
    unfold run run_locked
    rw [check_spawn_stop, hs]
    simp [check_spawn_tasks, enqueuedOf_append, check_spawn_enqueuedOf, enqueuedOf]
  · intro s k nb i t rest hk ht
    have hg := fun a => getElem?_set_self_of_some s._pool k _ a hk
    unfold Worker.step
    rw [hk]
    dsimp only
    rw [ht]
    simp [set_worker, hg, dequeuedOf_append, dequeuedOf]
  · intro ps mps as
    have h := FifoInv_exec as _ (FifoInv_create ps mps)
    exact ⟨h, ⟨_, h⟩⟩

set_option maxRecDepth 100000 in
/-- The statement of `fifo_order` on tasks 1, 2, 3 given in this order to a
pool of one worker, which then runs alone: they are dequeued as 1, 2, 3. -/
theorem fifo_order_witness :
    dequeuedOf (exec (create 1 1)
        ([Action.run 1, Action.run 2, Action.run 3] ++ solo 0 18)).trace = [1, 2, 3] ∧
      dequeuedOf (exec (create 1 1)
        ([Action.run 1, Action.run 2, Action.run 3] ++ solo 0 18)).trace <+:
        enqueuedOf (exec (create 1 1)
          ([Action.run 1, Action.run 2, Action.run 3] ++ solo 0 18)).trace :=
  ⟨by decide, (fifo_order.2.2 1 1 ([Action.run 1, Action.run 2, Action.run 3] ++ solo 0 18)).2⟩

/-- Claim C4: when the stop flag is set, also with tasks in the queue, a
worker whose wait returns goes straight to the end of `operator()`: the state
changes in nothing but that thread being marked returned, so no task leaves
the queue, none is executed and neither task hook is called.  Hence in a pool
reached from its constructor, once the flag is set no later schedule changes
the queue or dequeues a task, and every task executed afterwards had been
dequeued before. -/
theorem stopped_worker_returns :
    (∀ (s : SQMW) (k nb i : Nat),
        s._pool[k]? = some { nb_task := nb, pc := Pc.cv_wait i } → s._stop = true →
          Worker.step s k = set_worker s k { nb_task := nb, pc := Pc.returned } ∧
            (Worker.step s k)._tasks = s._tasks ∧ (Worker.step s k).trace = s.trace ∧
            (s._tasks_lock = false → Worker.ready s k = true)) ∧
      (∀ (pool_size max_pool_size : Nat) (before after : List Action),
        (exec (create pool_size max_pool_size) before)._stop = true →
          (exec (exec (create pool_size max_pool_size) before) after)._tasks =
              (exec (create pool_size max_pool_size) before)._tasks ∧
            dequeuedOf (exec (exec (create pool_size max_pool_size) before) after).trace =
              dequeuedOf (exec (create pool_size max_pool_size) before).trace ∧
            (executedOf (exec (exec (create pool_size max_pool_size) before) after).trace).length
                + in_flight (exec (exec (create pool_size max_pool_size) before) after) =
              (executedOf (exec (create pool_size max_pool_size) before).trace).length
                + in_flight (exec (create pool_size max_pool_size) before)) := by
  refine ⟨?_, ?_⟩
  · intro s k nb i hk hs
    have h1 : Worker.step s k = set_worker s k { nb_task := nb, pc := Pc.returned } := by
      unfold Worker.step
      rw [hk]
      dsimp only
      rw [if_pos hs]
    refine ⟨h1, ?_, ?_, ?_⟩
    · rw [h1]; rfl
    · rw [h1]; rfl
    · intro hl
      unfold Worker.ready
      rw [hk]
      simp [hl, hs]
  · intro ps mps before after hs
    have hl := LockInv_exec before _ (LockInv_create ps mps)
    have hf := Frozen_of_LockInv _ hl hs
    exact (Frozen_exec after _ hf).2

/-- The statement of `stopped_worker_returns` on a pool of one worker stopped
with task 5 still queued: the worker wakes and returns, `[5]` stays queued. -/
theorem stopped_worker_returns_witness :
    (exec (create 1 1) [Action.run 5, Action.worker 0, Action.stop])._stop = true ∧
      (exec (create 1 1) [Action.run 5, Action.worker 0, Action.stop])._tasks = [5] ∧
      Worker.step (exec (create 1 1) [Action.run 5, Action.worker 0, Action.stop]) 0 =
        set_worker (exec (create 1 1) [Action.run 5, Action.worker 0, Action.stop]) 0
          { nb_task := 0, pc := Pc.returned } :=
  ⟨by decide, by decide,
    (stopped_worker_returns.1 (exec (create 1 1) [Action.run 5, Action.worker 0, Action.stop])
      0 0 0 (by decide) (by decide)).1⟩

/-- Claim C5 fails on the code: constructing a pool with `pool_size` 2 and
`max_pool_size` 1 yields a pool, with both sizes stored as given and two
threads started. -/
theorem construct_accepts_maximum_below_baseline :
    construct 2 1 ≠ none ∧
      ∃ s, construct 2 1 = some s ∧ s._pool_size = 2 ∧ s._max_pool_size = 1 ∧
        s._pool = [{ nb_task := 0, pc := Pc.loop_test 0 },
          { nb_task := 0, pc := Pc.loop_test 0 }] :=
  ⟨by decide, _, rfl, by decide, by decide, by decide⟩

/-- Claim C5 as amended: for every pair with `max_pool_size < pool_size` the
constructor yields a pool; both sizes are stored as given, `pool_size` threads
with task budget 0 are started, and in every state reached from it the spawn
check admits no worker. -/
theorem construct_with_maximum_below_baseline (pool_size max_pool_size : Nat)
    (h : max_pool_size < pool_size) :
    construct pool_size max_pool_size = some (create pool_size max_pool_size) ∧
      (create pool_size max_pool_size)._pool_size = pool_size ∧
      (create pool_size max_pool_size)._max_pool_size = max_pool_size ∧
      (create pool_size max_pool_size)._pool =
        List.replicate pool_size { nb_task := 0, pc := Pc.loop_test 0 } ∧
      ∀ as : List Action,
        check_spawn_single_worker (exec (create pool_size max_pool_size) as) =
          exec (create pool_size max_pool_size) as := by
  refine ⟨rfl, (create_sizes _ _).2, (create_sizes _ _).1, ?_, ?_⟩
  · rw [create_eq]
  · intro as
    have h1 := exec_sizes as (create pool_size max_pool_size)
    have h2 := create_sizes pool_size max_pool_size
    unfold check_spawn_single_worker
    rw [if_neg (by omega)]

/-- The statement of `construct_with_maximum_below_baseline` at sizes 3 and 1. -/
theorem construct_with_maximum_below_baseline_witness :
    (1 : Nat) < 3 ∧ construct 3 1 = some (create 3 1) ∧ (create 3 1)._pool.length = 3 :=
  ⟨by decide, (construct_with_maximum_below_baseline 3 1 (by decide)).1, by decide⟩

/-- Claim C6 fails on the code: a pool of sizes 1 and 2.  The baseline worker
registers; `run` admits a second worker, which registers; the baseline worker
takes the task, executes it and executes line 140; `run` then reads the
counters as 0 + 1 and admits a third worker, which registers; the baseline
worker executes line 116.  No spawn check ran while a newly started worker was
unregistered, and the two counters add up to 3. -/
theorem bound_exceeded_without_racing_spawns :
    (1 : Nat) ≤ 2 ∧
      no_racing_spawns (create 1 2)
        [Action.worker 0, Action.run 10, Action.worker 1, Action.worker 0, Action.worker 0,
          Action.worker 0, Action.worker 0, Action.worker 0, Action.run 11, Action.worker 2,
          Action.worker 0] = true ∧
      ¬ (threads_working (exec (create 1 2)
          [Action.worker 0, Action.run 10, Action.worker 1, Action.worker 0, Action.worker 0,
            Action.worker 0, Action.worker 0, Action.worker 0, Action.run 11, Action.worker 2,
            Action.worker 0]) +
        threads_available (exec (create 1 2)
          [Action.worker 0, Action.run 10, Action.worker 1, Action.worker 0, Action.worker 0,
            Action.worker 0, Action.worker 0, Action.worker 0, Action.run 11, Action.worker 2,
            Action.worker 0]) ≤ 2) :=
  ⟨by decide, by decide, by decide⟩

/-- Claim C6 as amended: in every state reached from a pool constructed with
`pool_size ≤ max_pool_size` by a schedule of run, stop, hook registration and
worker steps in which the counters are read for a spawn check only when every
live thread is counted in one of them (none is before line 116 or between
lines 127 and 128), `threads_working() + threads_available()` is at most
`max_pool_size`. -/
theorem bound_with_settled_spawns (pool_size max_pool_size : Nat) (as : List Action)
    (h : pool_size ≤ max_pool_size) (hm : max_pool_size < SIZE_MOD)
    (hs : settled_spawns (create pool_size max_pool_size) as = true) :
    threads_working (exec (create pool_size max_pool_size) as) +
      threads_available (exec (create pool_size max_pool_size) as) ≤ max_pool_size := by
  have hi := CountInv_exec as _ (CountInv_create pool_size max_pool_size h hm) hs
  have := hi.bound
  have h1 := (exec_sizes as (create pool_size max_pool_size)).1
  have h2 := (create_sizes pool_size max_pool_size).1
  unfold threads_working threads_available
  omega

/-- The statement of `bound_with_settled_spawns` on a pool of sizes 1 and 2
that admits one more worker and then refuses the next. -/
theorem bound_with_settled_spawns_witness :
    settled_spawns (create 1 2)
        [Action.worker 0, Action.run 10, Action.worker 1, Action.run 11] = true ∧
      threads_working (exec (create 1 2)
          [Action.worker 0, Action.run 10, Action.worker 1, Action.run 11]) +
        threads_available (exec (create 1 2)
          [Action.worker 0, Action.run 10, Action.worker 1, Action.run 11]) ≤ 2 :=
  ⟨by decide,
    bound_with_settled_spawns 1 2
      [Action.worker 0, Action.run 10, Action.worker 1, Action.run 11]
      (by decide) (by decide) (by decide)⟩

/-- Claim C7 fails on the code: in a pool of sizes 1 and 2 whose baseline
worker is idle (waiting-count 1, working-count 0), `run` admits a worker. -/
theorem run_admits_worker_while_baseline_idle :
    (exec (create 1 2) [Action.worker 0])._waiting_threads = 1 ∧
      (exec (create 1 2) [Action.worker 0])._working_threads = 0 ∧
      (exec (create 1 2) [Action.worker 0])._pool = [{ nb_task := 0, pc := Pc.cv_wait 0 }] ∧
      (run (exec (create 1 2) [Action.worker 0]) 7)._pool =
        [{ nb_task := 0, pc := Pc.cv_wait 0 }, { nb_task := 1, pc := Pc.loop_test 0 }] :=
  ⟨by decide, by decide, by decide, by decide⟩

/-- Claim C8: a worker started with task budget `N > 0` that runs alone in a
pool whose stop flag stays unset, with at least `N` tasks queued, goes `N`
times round its loop (six steps each), executes the first `N` tasks of the
queue and no other, and then leaves the loop at the test of line 113 (one more
step), whatever else the state holds; from then on it does nothing.  At the loop test such a worker returns
exactly when its counter equals `N`.  A worker with budget 0 passes the loop
test for every value of the counter, so after any number of iterations,
counter wrap-around included, it is back at the loop test; the only step by
which it returns is a wake-up that finds the stop flag set.  Under every
schedule, of any threads, a loop variable that is within its thread's budget
stays within it, so no worker starts more iterations than its budget. -/
theorem worker_task_budget :
    (∀ (s : SQMW) (k N : Nat) (ts rest : List Task),
        0 < N → N < SIZE_MOD →
        s._pool[k]? = some { nb_task := N, pc := Pc.loop_test 0 } →
        s._stop = false → s._tasks_lock = false →
        s._tasks = ts ++ rest → ts.length = N →
          (exec s (solo k (6 * N + 1)))._pool[k]? = some { nb_task := N, pc := Pc.returned } ∧
            executedOf (exec s (solo k (6 * N + 1))).trace = executedOf s.trace ++ ts ∧
            (exec s (solo k (6 * N + 1)))._tasks = rest ∧
            (exec s (solo k (6 * N + 1)))._stop = false ∧
            ∀ m, exec (exec s (solo k (6 * N + 1))) (solo k m) = exec s (solo k (6 * N + 1))) ∧
      (∀ (s : SQMW) (k N i : Nat), 0 < N →
        s._pool[k]? = some { nb_task := N, pc := Pc.loop_test i } →
          (Worker.step s k)._pool[k]? =
            some { nb_task := N, pc := if i = N then Pc.returned else Pc.cv_wait i }) ∧
      (∀ (s : SQMW) (k i : Nat) (ts rest : List Task),
        i < SIZE_MOD →
        s._pool[k]? = some { nb_task := 0, pc := Pc.loop_test i } →
        s._stop = false → s._tasks_lock = false → s._tasks = ts ++ rest →
          (exec s (solo k (6 * ts.length)))._pool[k]? =
              some { nb_task := 0, pc := Pc.loop_test ((i + ts.length) % SIZE_MOD) } ∧
            executedOf (exec s (solo k (6 * ts.length))).trace = executedOf s.trace ++ ts) ∧
      (∀ (s : SQMW) (k i : Nat),
        s._pool[k]? = some { nb_task := 0, pc := Pc.loop_test i } →
          (Worker.step s k)._pool[k]? = some { nb_task := 0, pc := Pc.cv_wait i }) ∧
      (∀ (s : SQMW) (k : Nat) (pc : Pc),
        s._pool[k]? = some { nb_task := 0, pc := pc } → pc ≠ Pc.returned →
        (Worker.step s k)._pool[k]? = some { nb_task := 0, pc := Pc.returned } →
          s._stop = true ∧ ∃ i, pc = Pc.cv_wait i) ∧
      (∀ (s : SQMW) (as : List Action),
        (∀ (k : Nat) (w : Worker), s._pool[k]? = some w →
          w.nb_task < SIZE_MOD ∧ w.within_budget = true) →
        ∀ (k : Nat) (w : Worker), (exec s as)._pool[k]? = some w →
          w.nb_task < SIZE_MOD ∧ w.within_budget = true) ∧
      (∀ (pool_size max_pool_size : Nat) (as : List Action) (k : Nat) (w : Worker),
        (exec (create pool_size max_pool_size) as)._pool[k]? = some w →
          w.within_budget = true) := by
  refine ⟨?_, ?_, ?_, ?_, ?_, fun s as hs => BudgetInv_exec as s hs,
    fun ps mps as k w hk => (BudgetInv_exec as _ (BudgetInv_create ps mps) k w hk).2⟩
  · intro s k N ts rest hN hlt hk hs hl ht hlen
    have hit := iterations ts s k N 0 rest (by unfold SIZE_MOD; omega) ⟨hk, hs, hl⟩
      (fun j hj => loop_cond_budget N j hlt (hlen ▸ hj)) ht
    rw [hlen] at hit
    obtain ⟨⟨a1, a2, a3⟩, a4, a5⟩ := hit
    have hc : counter_after 0 N = N := by
      unfold counter_after SIZE_MOD at *; omega
    rw [hc] at a1
    rw [solo_add, exec_append]
    have h1 : ∀ r : SQMW, exec r (solo k 1) = apply r (Action.worker k) := by
      intro r
      simp only [exec, solo, List.replicate, List.foldl]
    rw [h1]
    obtain ⟨b1, b2, b3, b4, b5⟩ := view_loop_test _ k N N a1
    have hf : Worker.loop_cond N N = false := by
      unfold Worker.loop_cond
      simp
      omega
    rw [hf] at b1
    simp only [Bool.false_eq_true, if_false] at b1
    refine ⟨b1, ?_, ?_, ?_, ?_⟩
    · rw [b5, a5]; simp
    · rw [b4, a4]
    · rw [b2, a2]
    · intro m
      exact exec_solo_returned m _ k N b1
  · intro s k N i hN hk
    have hg := fun a => getElem?_set_self_of_some s._pool k _ a hk
    unfold Worker.step
    rw [hk]
    dsimp only
    by_cases hi : i = N
    · have hf : Worker.loop_cond i N = false := by
        unfold Worker.loop_cond
        simp [hi]
        omega
      rw [hf]
      simp [set_worker, hg, hi]
    · have hf : Worker.loop_cond i N = true := by
        unfold Worker.loop_cond
        simp [hi]
      rw [hf]
      simp [set_worker, hg, hi]
  · intro s k i ts rest hi hk hs hl ht
    obtain ⟨⟨a1, _, _⟩, _, a5⟩ := iterations ts s k 0 i rest hi ⟨hk, hs, hl⟩
      (fun j _ => loop_cond_zero _) ht
    exact ⟨a1, a5⟩
  · intro s k i hk
    have hg := fun a => getElem?_set_self_of_some s._pool k _ a hk
    unfold Worker.step
    rw [hk]
    dsimp only
    rw [loop_cond_zero]
    simp [set_worker, hg]
  · intro s k pc hk hne hret
    have hg := fun a => getElem?_set_self_of_some s._pool k _ a hk
    unfold Worker.step at hret
    rw [hk] at hret
    cases pc with
    | loop_test i =>
      dsimp only at hret
      rw [loop_cond_zero] at hret
      simp [set_worker, hg] at hret
    | cv_wait i =>
      dsimp only at hret
      cases hs : s._stop
      · rw [hs] at hret
        simp [set_worker, hg] at hret
      · exact ⟨rfl, i, rfl⟩
    | woken i => simp [set_worker, hg] at hret
    | left_waiting i => simp [set_worker, hg] at hret
    | counted i =>
      dsimp only at hret
      cases ht : s._tasks with
      | nil =>
        rw [ht] at hret
        simp [hk] at hret
      | cons t rest =>
        rw [ht] at hret
        simp [set_worker, hg] at hret
    | running i t => simp [set_worker, hg] at hret
    | returned => exact absurd rfl hne

/-- The statement of `worker_task_budget` on a pool of sizes 0 and 1 given
tasks 5 and 6: the worker admitted with task 5, running alone, executes it and
returns, and task 6 stays queued. -/
theorem worker_task_budget_witness :
    (exec (create 0 1) [Action.run 5, Action.run 6])._pool[0]? =
        some { nb_task := 1, pc := Pc.loop_test 0 } ∧
      (exec (exec (create 0 1) [Action.run 5, Action.run 6])
        (solo 0 (6 * 1 + 1)))._pool[0]? = some { nb_task := 1, pc := Pc.returned } ∧
      executedOf (exec (exec (create 0 1) [Action.run 5, Action.run 6])
        (solo 0 (6 * 1 + 1))).trace = [] ++ [5] ∧
      (exec (exec (create 0 1) [Action.run 5, Action.run 6])
        (solo 0 (6 * 1 + 1)))._tasks = [6] :=
  ⟨by decide,
    (worker_task_budget.1 (exec (create 0 1) [Action.run 5, Action.run 6])
      0 1 [5] [6] (by decide) (by decide) (by decide) (by decide) (by decide) (by decide)
      (by decide)).1,
    (worker_task_budget.1 (exec (create 0 1) [Action.run 5, Action.run 6])
      0 1 [5] [6] (by decide) (by decide) (by decide) (by decide) (by decide) (by decide)
      (by decide)).2.1,
    (worker_task_budget.1 (exec (create 0 1) [Action.run 5, Action.run 6])
      0 1 [5] [6] (by decide) (by decide) (by decide) (by decide) (by decide) (by decide)
      (by decide)).2.2.1⟩

/-- Claim C9 fails on the code: a pool of one worker.  The worker executes
line 116, the pool is stopped, the worker wakes and returns at line 123 without
executing line 127: every thread has returned and `threads_available()` is 1,
while it was 0 before the iteration began. -/
theorem stop_branch_keeps_waiting_count :
    threads_available (create 1 1) = 0 ∧
      (exec (create 1 1) [Action.worker 0, Action.stop, Action.worker 0])._pool =
        [{ nb_task := 0, pc := Pc.returned }] ∧
      threads_available (exec (create 1 1) [Action.worker 0, Action.stop, Action.worker 0]) = 1 :=
  ⟨by decide, by decide, by decide⟩

/-- Claim C10: a worker never applies `front()` and `pop()` to an empty queue.
In any state, a worker whose wait can return and that finds the stop flag
unset sees a non-empty queue and takes the mutex without touching the queue.
In every state reached from the constructor, no `front()` on an empty queue
has happened, the queue is non-empty and the stop flag unset while a thread is
between its wake-up and line 135, and the dequeue of a thread standing before
line 131 yields the front task and shortens the queue by exactly one entry. -/
theorem dequeue_finds_task :
    (∀ (s : SQMW) (k nb i : Nat),
        s._pool[k]? = some { nb_task := nb, pc := Pc.cv_wait i } →
        Worker.ready s k = true → s._stop = false →
          s._tasks ≠ [] ∧ (Worker.step s k)._tasks = s._tasks ∧
            (Worker.step s k)._tasks_lock = true ∧
            (Worker.step s k)._pool[k]? = some { nb_task := nb, pc := Pc.woken i }) ∧
      (∀ (pool_size max_pool_size : Nat) (as : List Action),
        (exec (create pool_size max_pool_size) as).undefined = false ∧
        (∀ (k : Nat) (w : Worker),
          (exec (create pool_size max_pool_size) as)._pool[k]? = some w →
          w.pc.in_critical = true →
            (exec (create pool_size max_pool_size) as)._tasks ≠ [] ∧
              (exec (create pool_size max_pool_size) as)._stop = false ∧
              (exec (create pool_size max_pool_size) as)._tasks_lock = true) ∧
        (∀ (k nb i : Nat),
          (exec (create pool_size max_pool_size) as)._pool[k]? =
            some { nb_task := nb, pc := Pc.counted i } →
            ∃ t rest,
              (exec (create pool_size max_pool_size) as)._tasks = t :: rest ∧
                (Worker.step (exec (create pool_size max_pool_size) as) k)._tasks = rest ∧
                (Worker.step (exec (create pool_size max_pool_size) as) k)._pool[k]? =
                  some { nb_task := nb, pc := Pc.running i t } ∧
                (Worker.step (exec (create pool_size max_pool_size) as) k)._tasks.length + 1 =
                  (exec (create pool_size max_pool_size) as)._tasks.length ∧
                (Worker.step (exec (create pool_size max_pool_size) as) k).undefined =
                  false)) := by
  refine ⟨?_, ?_⟩
  · intro s k nb i hk hr hs
    have hg := fun a => getElem?_set_self_of_some s._pool k _ a hk
    unfold Worker.ready at hr
    rw [hk] at hr
    simp only [hs, Bool.false_or, Bool.and_eq_true, Bool.not_eq_true', List.isEmpty_eq_true]
      at hr
    refine ⟨?_, ?_⟩
    · intro h
      simp [h] at hr
    · unfold Worker.step
      rw [hk]
      dsimp only
      rw [hs]
      simp [set_worker, hg]
  · intro ps mps as
    have hl := LockInv_exec as _ (LockInv_create ps mps)
    generalize exec (create ps mps) as = s at hl
    have hcrit : ∀ (k : Nat) (w : Worker), s._pool[k]? = some w → w.pc.in_critical = true →
        s._tasks ≠ [] ∧ s._stop = false ∧ s._tasks_lock = true := by
      intro k w hk hw
      have hp := countP_pos_of_getElem? (fun w : Worker => w.pc.in_critical) s._pool k w hk hw
      have he := hl.holders_eq
      unfold holders at he
      have hlock : s._tasks_lock = true := by
        cases hlk : s._tasks_lock
        · rw [hlk] at he
          simp only [Bool.false_eq_true, if_false] at he
          omega
        · rfl
      exact ⟨hl.locked_nonempty hlock, hl.locked_running hlock, hlock⟩
    refine ⟨hl.defined, hcrit, ?_⟩
    intro k nb i hk
    have hne := (hcrit k _ hk rfl).1
    have hg := fun a => getElem?_set_self_of_some s._pool k _ a hk
    cases ht : s._tasks with
    | nil => exact absurd ht hne
    | cons t rest =>
      refine ⟨t, rest, rfl, ?_⟩
      unfold Worker.step
      rw [hk]
      dsimp only
      rw [ht]
      simp [set_worker, hg, hl.defined]

/-- The statement of `dequeue_finds_task` on a pool of one worker given tasks
5 and 6, when the worker stands before line 131: it takes 5 and leaves `[6]`. -/
theorem dequeue_finds_task_witness :
    (exec (create 1 1) ([Action.run 5, Action.run 6] ++ solo 0 4))._pool[0]? =
        some { nb_task := 0, pc := Pc.counted 0 } ∧
      ∃ t rest,
        (exec (create 1 1) ([Action.run 5, Action.run 6] ++ solo 0 4))._tasks = t :: rest ∧
          (Worker.step (exec (create 1 1) ([Action.run 5, Action.run 6] ++ solo 0 4)) 0)._tasks
            = rest ∧
          (Worker.step (exec (create 1 1) ([Action.run 5, Action.run 6] ++ solo 0 4)) 0)._pool[0]?
            = some { nb_task := 0, pc := Pc.running 0 t } ∧
          (Worker.step (exec (create 1 1) ([Action.run 5, Action.run 6] ++ solo 0 4))
            0)._tasks.length + 1 =
            (exec (create 1 1) ([Action.run 5, Action.run 6] ++ solo 0 4))._tasks.length ∧
          (Worker.step (exec (create 1 1) ([Action.run 5, Action.run 6] ++ solo 0 4))
            0).undefined = false :=
  ⟨by decide,
    (dequeue_finds_task.2 1 1 ([Action.run 5, Action.run 6] ++ solo 0 4)).2.2 0 0 0 (by decide)⟩

end SQMW

end ThreadPool
